import Mathlib

/-!
Verification of the VaultStack encrypted-vault engine against its
natural-language specification.

The development shallowly embeds the client-side crypto / local-store code
(`VaultCrypto`, `vaultDB` of the client library) and the Express file-server
handlers (`FileEncryption`, the `/api/vault-items` and `/api/files` routes).

Modelling conventions, stated once here:

* Strings are Lean `String`s; JavaScript `split(':')` is modelled by
  `jsSplit`, which has the same semantics as JS `String.prototype.split`
  with a single-character separator (empty pieces kept, `"" ↦ [""]`).
* The AES-CBC cipher of crypto-js is modelled as an ideal symmetric cipher:
  a ciphertext is an injective, colon-free string encoding of the encryption
  key, the IV and the plaintext; decryption with the matching key and IV
  recovers the plaintext, and decryption with any other key or IV yields the
  empty string, mirroring crypto-js returning an empty/invalid UTF-8
  `WordArray` for a wrong key.  PBKDF2 is modelled as an ideal key-derivation
  function: the derived key is the pair `(password, salt)`, which is
  deterministic and collision-free, as the spec assumes of the real KDF.
* Randomness (salt/IV generation) is supplied by explicit entropy arguments;
  `generateSalt`/`generateIV` turn the entropy into fixed-width hex strings
  exactly as wide as the crypto-js `WordArray.random(32)`/`random(16)` hex
  renderings used by the source.
-/

/-! ## Character-list machinery: JS `split` and an injective escape code -/

/-- Splits a character list at every occurrence of `sep`, keeping empty
pieces, with the same semantics as JavaScript `String.prototype.split` with a
one-character separator (`[] ↦ [[]]`). -/
def splitCh (sep : Char) : List Char → List (List Char)
  | [] => [[]]
  | c :: rest =>
    match splitCh sep rest with
    | [] => [[]]
    | t :: ts => if c = sep then [] :: t :: ts else (c :: t) :: ts

/-- Escape encoding whose output never contains `':'` or `'_'`:
`'%' ↦ "%p"`, `':' ↦ "%c"`, `'_' ↦ "%u"`, every other character kept. -/
def esc : List Char → List Char
  | [] => []
  | c :: rest =>
    if c = '%' then '%' :: 'p' :: esc rest
    else if c = ':' then '%' :: 'c' :: esc rest
    else if c = '_' then '%' :: 'u' :: esc rest
    else c :: esc rest

/-- Decoder of `esc`; fails on ill-formed input. -/
def unesc : List Char → Option (List Char)
  | [] => some []
  | c :: rest =>
    if c = '%' then
      match rest with
      | [] => none
      | d :: rest2 =>
        if d = 'p' then (unesc rest2).map (fun l => '%' :: l)
        else if d = 'c' then (unesc rest2).map (fun l => ':' :: l)
        else if d = 'u' then (unesc rest2).map (fun l => '_' :: l)
        else none
    else if c = ':' ∨ c = '_' then none
    else (unesc rest).map (fun l => c :: l)

/-! ## VaultCrypto (client, `src/lib/crypto.ts`)

`deriveKey` models PBKDF2 as an ideal deterministic KDF: the derived key is
the `(password, salt)` pair.  `aesEncrypt`/`aesDecrypt` model crypto-js
AES-CBC as an ideal cipher: the ciphertext is an injective, colon-free string
encoding of `(key, iv, plaintext)`; decrypting with a different key or IV
yields `""`, as crypto-js yields an empty/invalid UTF-8 string then. -/

namespace VaultCrypto

/-- A derived symmetric key: the ideal-KDF image of `(password, salt)`. -/
def Key : Type := String × String

instance : DecidableEq Key := instDecidableEqProd

/-- PBKDF2(password, salt, 10000 iterations) modelled as an ideal KDF. -/
def deriveKey (password salt : String) : Key := (password, salt)

/-- One lowercase hex digit for a value below 16. -/
def hexDigit (n : Nat) : Char :=
  if n < 10 then Char.ofNat (48 + n) else Char.ofNat (87 + n)

/-- Fixed-width big-endian hex rendering (`k` digits) of `n`. -/
def hexChars : Nat → Nat → List Char
  | 0, _ => []
  | k + 1, n => hexChars k (n / 16) ++ [hexDigit (n % 16)]

/-- `CryptoJS.lib.WordArray.random(32).toString()`: 64 hex chars drawn from
the entropy argument. -/
def generateSalt (entropy : Nat) : String := String.mk (hexChars 64 entropy)

/-- `CryptoJS.lib.WordArray.random(16).toString()`: 32 hex chars drawn from
the entropy argument. -/
def generateIV (entropy : Nat) : String := String.mk (hexChars 32 entropy)

/-- Ideal-cipher AES-CBC encryption: an injective, colon-free and
underscore-separated encoding of the key, the IV and the plaintext. -/
def aesEncrypt (key : Key) (iv data : String) : String :=
  String.mk (esc key.1.data ++ ('_' :: (esc key.2.data ++ ('_' :: (esc iv.data
    ++ ('_' :: esc data.data))))))

/-- Ideal-cipher AES-CBC decryption: recovers the plaintext exactly when the
key and IV match the ones the ciphertext was produced with, and yields `""`
(crypto-js: empty/invalid UTF-8 plaintext) otherwise. -/
def aesDecrypt (key : Key) (iv : String) (ciphertext : String) : String :=
  match splitCh '_' ciphertext.data with
  | [p1, p2, p3, p4] =>
    match unesc p1, unesc p2, unesc p3, unesc p4 with
    | some k1, some k2, some ivc, some d =>
      if (String.mk k1, String.mk k2) = key ∧ String.mk ivc = iv
      then String.mk d else ""
    | _, _, _, _ => ""
  | _ => ""

/-- JavaScript `s.split(sep)` for a one-character separator. -/
def jsSplit (sep : Char) (s : String) : List String :=
  (splitCh sep s.data).map String.mk

/-- `VaultCrypto.encrypt` with the salt and IV made explicit:
`salt + ':' + iv + ':' + AES(key, iv, data)` under the key derived from
`(masterPassword, salt)`. -/
def encryptWith (data masterPassword salt iv : String) : String :=
  salt ++ ":" ++ iv ++ ":" ++ aesEncrypt (deriveKey masterPassword salt) iv data

/-- `VaultCrypto.encrypt(data, masterPassword)`: fresh random salt and IV are
drawn from the two entropy arguments. -/
def encrypt (data masterPassword : String) (saltEntropy ivEntropy : Nat) : String :=
  encryptWith data masterPassword (generateSalt saltEntropy) (generateIV ivEntropy)

/-- Internal error message for a malformed envelope. -/
def invalidFormatMsg : String := "Ongeldig encrypted data formaat"

/-- Internal error message for an empty/invalid decrypted plaintext. -/
def emptyPlainMsg : String := "Decryptie mislukt - mogelijk verkeerd wachtwoord"

/-- The single error message the caller of `decrypt` observes. -/
def decryptErrMsg : String :=
  "Kon gegevens niet ontsleutelen - controleer je master wachtwoord"

/-- The body of the `try` block of `VaultCrypto.decrypt`: split the envelope
on `':'`, require exactly three parts, derive the key from the embedded salt,
decrypt, and reject an empty decrypted string. -/
def decryptInner (encryptedData masterPassword : String) : Except String String :=
  match jsSplit ':' encryptedData with
  | [salt, iv, encrypted] =>
    let key := deriveKey masterPassword salt
    let decryptedString := aesDecrypt key iv encrypted
    if decryptedString = "" then Except.error emptyPlainMsg
    else Except.ok decryptedString
  | _ => Except.error invalidFormatMsg

/-- `VaultCrypto.decrypt(encryptedData, masterPassword)`: the `catch` block
rethrows every internal failure as the one generic error message. -/
def decrypt (encryptedData masterPassword : String) : Except String String :=
  match decryptInner encryptedData masterPassword with
  | Except.ok s => Except.ok s
  | Except.error _ => Except.error decryptErrMsg

end VaultCrypto

/-! ## The vault-item record and field-level encryption -/

/-- The closed category set of the `VaultItem` interface. -/
inductive Cat
  | passwords
  | notes
  | links
  | files
deriving DecidableEq, Repr

/-- String form of a category, as it appears in JS template strings. -/
def catStr : Cat → String
  | Cat.passwords => "passwords"
  | Cat.notes => "notes"
  | Cat.links => "links"
  | Cat.files => "files"

/-- The `VaultItem` record (the fields relevant to the engine): `id` is
assigned by the store (`none` before insertion), `createdAt`/`updatedAt` are
millisecond timestamps, and the five optional string fields are the ones the
crypto layer can touch plus the clear-stored `links` field. -/
structure VItem where
  id : Option Nat
  name : String
  category : Cat
  description : Option String
  username : Option String
  password : Option String
  url : Option String
  linkUrl : Option String
  links : Option String
  createdAt : Int
  updatedAt : Int
  isFavorite : Bool
deriving DecidableEq, Repr

/-- The five sensitive field names of
`['password', 'username', 'description', 'url', 'linkUrl']`. -/
inductive SField
  | password
  | username
  | description
  | url
  | linkUrl
deriving DecidableEq, Repr

/-- The `sensitiveFields` array, in source order. -/
def sensitiveFields : List SField :=
  [SField.password, SField.username, SField.description, SField.url, SField.linkUrl]

/-- Read a sensitive field. -/
def getS : SField → VItem → Option String
  | SField.password, it => it.password
  | SField.username, it => it.username
  | SField.description, it => it.description
  | SField.url, it => it.url
  | SField.linkUrl, it => it.linkUrl

/-- Write a sensitive field. -/
def setS : SField → Option String → VItem → VItem
  | SField.password, v, it => { it with password := v }
  | SField.username, v, it => { it with username := v }
  | SField.description, v, it => { it with description := v }
  | SField.url, v, it => { it with url := v }
  | SField.linkUrl, v, it => { it with linkUrl := v }

namespace VaultCrypto

/-- Per-field step of `encryptVaultItem`: a truthy (present, non-empty) value
is replaced by its envelope; an absent or empty value is left alone. -/
def encField (masterPassword : String) (entropy : Nat × Nat) :
    Option String → Option String
  | none => none
  | some s => if s ≠ "" then some (encrypt s masterPassword entropy.1 entropy.2)
              else some s

/-- `VaultCrypto.encryptVaultItem(item, masterPassword)`: walk the sensitive
fields in order and replace each truthy value by a fresh envelope.  The
per-field fresh randomness is supplied by `entropies`. -/
def encryptVaultItem (item : VItem) (masterPassword : String)
    (entropies : SField → Nat × Nat) : VItem :=
  sensitiveFields.foldl
    (fun acc f => setS f (encField masterPassword (entropies f) (getS f acc)) acc)
    item

/-- Per-field step of `decryptVaultItem`: decryption is attempted only on a
truthy string value containing `':'`; a per-field decryption failure keeps
the stored value. -/
def decField (masterPassword : String) : Option String → Option String
  | none => none
  | some s =>
    if s ≠ "" ∧ ':' ∈ s.data then
      match decrypt s masterPassword with
      | Except.ok d => some d
      | Except.error _ => some s
    else some s

/-- `VaultCrypto.decryptVaultItem(encryptedItem, masterPassword)`: walk the
sensitive fields in order; try to decrypt envelope-looking values and keep
the original value whenever decryption fails. -/
def decryptVaultItem (item : VItem) (masterPassword : String) : VItem :=
  sensitiveFields.foldl
    (fun acc f => setS f (decField masterPassword (getS f acc)) acc)
    item

end VaultCrypto

/-! ## vaultDB (client local store, `src/lib/database.ts`)

The Dexie table is modelled as a list of `VItem` plus the auto-increment
counter; the IndexedDB key generator is not reset by `clear()`, so the
counter survives clearing, exactly as in Dexie. -/

namespace vaultDB

/-- The duplicate-detection key
`item.name + "-" + item.category + "-" + item.createdAt.getTime()`. -/
def keyOf (it : VItem) : String :=
  it.name ++ "-" ++ catStr it.category ++ "-" ++ toString it.createdAt

/-- `item.id!`: the non-null assertion on the primary key of a stored item
(0 for the impossible absent case). -/
def idOf (it : VItem) : Nat := it.id.getD 0

/-- The duplicate-collection loop of `removeDuplicateItems`: walk the items
with the set of `seen` keys, pushing the id of every item whose key was
already seen. -/
def dupIds : List VItem → List String → List Nat
  | [], _ => []
  | it :: rest, seen =>
    if keyOf it ∈ seen then idOf it :: dupIds rest seen
    else dupIds rest (keyOf it :: seen)

/-- `vaultDB.removeDuplicateItems()`: collect duplicate ids, bulk-delete
them, and report `(removed, remaining-items)`. -/
def removeDuplicateItems (items : List VItem) : Nat × List VItem :=
  let duplicates := dupIds items []
  (duplicates.length, items.filter (fun it => decide (idOf it ∉ duplicates)))

/-- Declarative first-occurrence filter: keep an item exactly when no earlier
item (nor the ambient `seen` set) has its key. -/
def keepFirstByKey (seen : List String) : List VItem → List VItem
  | [] => []
  | it :: rest =>
    if keyOf it ∈ seen then keepFirstByKey seen rest
    else it :: keepFirstByKey (keyOf it :: seen) rest

/-- The Dexie table plus its persistent auto-increment key generator. -/
structure DBState where
  items : List VItem
  nextId : Nat
deriving DecidableEq, Repr

/-- `db.vaultItems.add(item)` on an item without an id: Dexie mints the next
auto-increment key. -/
def dbAddRaw (st : DBState) (it : VItem) : DBState :=
  { items := st.items ++ [{ it with id := some st.nextId }],
    nextId := st.nextId + 1 }

/-- The items inserted by a sequence of `dbAddRaw` calls starting at `n`. -/
def stampFrom (n : Nat) : List VItem → List VItem
  | [] => []
  | it :: rest => { it with id := some n } :: stampFrom (n + 1) rest

/-- Result record of `syncVaultItemsFromServer`. -/
structure SyncFromResult where
  success : Bool
  synced : Nat
deriving DecidableEq, Repr

/-- `vaultDB.syncVaultItemsFromServer()`, with the outcome of
`loadVaultItemsFromServer` supplied as `load`: on a successful load, clear
the table (the auto-increment counter survives, as in IndexedDB), re-add
every server item with its server id dropped so Dexie mints a fresh one,
then run the duplicate cleanup. -/
def syncVaultItemsFromServer (load : Except String (List VItem)) (st : DBState) :
    SyncFromResult × DBState :=
  match load with
  | Except.error _ => ({ success := false, synced := 0 }, st)
  | Except.ok serverItems =>
    let cleared : DBState := { st with items := [] }
    let st2 := serverItems.foldl
      (fun acc it => dbAddRaw acc { it with id := none }) cleared
    let cleanup := removeDuplicateItems st2.items
    ({ success := true, synced := serverItems.length },
      { st2 with items := cleanup.2 })

/-- The `action` field of the auto-sync result. -/
inductive SyncAction
  | loaded
  | pushed
  | noAction
deriving DecidableEq, Repr

/-- Result record of `autoSyncVaultItems`. -/
structure AutoSyncResult where
  success : Bool
  action : SyncAction
  count : Option Nat
deriving DecidableEq, Repr

/-- `vaultDB.autoSyncVaultItems()`: fail fast without a password, degrade to
`action: none` when the server is unavailable, otherwise always pull the full
server snapshot. -/
def autoSyncVaultItems (masterPassword : String) (serverAvailable : Bool)
    (load : Except String (List VItem)) (st : DBState) :
    AutoSyncResult × DBState :=
  if masterPassword = "" then
    ({ success := false, action := SyncAction.noAction, count := none }, st)
  else if !serverAvailable then
    ({ success := true, action := SyncAction.noAction, count := none }, st)
  else
    let r := syncVaultItemsFromServer load st
    ({ success := r.1.success, action := SyncAction.loaded,
       count := some r.1.synced }, r.2)

/-- `orderBy('createdAt').reverse()`: newest first. -/
def sortByCreatedDesc (l : List VItem) : List VItem :=
  List.insertionSort (fun a b => b.createdAt ≤ a.createdAt) l

/-- `vaultDB.getAllItems()`: duplicate cleanup first, then the
createdAt-descending listing, decrypted per item when a password is set. -/
def getAllItems (masterPassword : String) (st : DBState) :
    List VItem × DBState :=
  let cleanup := removeDuplicateItems st.items
  let st2 : DBState := { st with items := cleanup.2 }
  let sorted := sortByCreatedDesc st2.items
  if masterPassword = "" then (sorted, st2)
  else (sorted.map (fun it => VaultCrypto.decryptVaultItem it masterPassword), st2)

end vaultDB

/-! ## File server (`file-server/server.js`)

The stored artifacts are JSON objects `{encrypted, salt, iv}`; the
`encrypted` ciphertext string is modelled opaquely by `CtVal`, an ideal
ciphertext that records the deriving `(password, salt)` pair, the IV it was
produced with and the plaintext.  `FileEncryption.decrypt` recovers the
plaintext exactly when the key derived from the supplied password and the
stored salt, and the stored IV, match the ciphertext; otherwise crypto-js
yields an empty/invalid string: for the raw-string payloads that is the
empty string (`decryptString`), and for JSON payloads the subsequent
`JSON.parse` throws (`decryptJson` is `none`). -/

/-- Server-side item id value: JS `item.id` may be a string, a number, or
absent. -/
inductive JsId
  | str (s : String)
  | num (n : Int)
  | missing
deriving DecidableEq, Repr

/-- A vault item as the server sees it: the id plus the remaining fields as
an opaque field map. -/
structure SItem where
  id : JsId
  fields : List (String × String)
deriving DecidableEq, Repr

/-- JS object spread `{...old, ...new}` on the non-id fields: keys of
`new` override those of `old`. -/
def spreadFields (old new : List (String × String)) : List (String × String) :=
  old.filter (fun kv => !(new.any (fun kv2 => kv2.1 == kv.1))) ++ new

/-- The POST validation `item.id && typeof item.id === 'string'`:
a truthy string id. -/
def truthyStringId : JsId → Bool
  | JsId.str s => s ≠ ""
  | _ => false

/-- An id of string type (regardless of truthiness). -/
def isStringId (i : JsId) : Prop := ∃ s, i = JsId.str s

/-- An ideal ciphertext value: records the key pair, the IV and the
plaintext it was produced from. -/
inductive CtVal (α : Type)
  | mk (key : String × String) (ivUsed : String) (plain : α)
deriving DecidableEq, Repr

/-- A stored encrypted artifact: the JSON object `{encrypted, salt, iv}`. -/
structure EncObj (α : Type) where
  encrypted : CtVal α
  salt : String
  iv : String
deriving DecidableEq, Repr

namespace FileEncryption

/-- `FileEncryption.encrypt(data, masterPassword)` with the random salt and
IV made explicit. -/
def encrypt {α : Type} (data : α) (masterPassword saltR ivR : String) : EncObj α :=
  { encrypted := CtVal.mk (masterPassword, saltR) ivR data, salt := saltR, iv := ivR }

/-- `FileEncryption.decrypt` for a raw-string payload (the base64 file
body): a wrong key or IV yields the empty string. -/
def decryptString (e : EncObj String) (masterPassword : String) : String :=
  match e.encrypted with
  | CtVal.mk key ivUsed plain =>
    if key = (masterPassword, e.salt) ∧ ivUsed = e.iv then plain else ""

/-- `FileEncryption.decrypt` followed by `JSON.parse` for a structured
payload: a wrong key or IV makes the parse throw, i.e. yields `none`. -/
def decryptJson {α : Type} (e : EncObj α) (masterPassword : String) : Option α :=
  match e.encrypted with
  | CtVal.mk key ivUsed plain =>
    if key = (masterPassword, e.salt) ∧ ivUsed = e.iv then some plain else none

end FileEncryption

/-! ### POST /api/vault-items: snapshot save with backup and verification -/

/-- The server's vault-items directory: the single stored snapshot plus the
timestamped backup files. -/
structure SrvVaultState where
  snapshot : Option (EncObj (List SItem))
  backups : List (Nat × EncObj (List SItem))
deriving DecidableEq, Repr

/-- Response of the snapshot-save endpoint. -/
inductive SaveResp
  | invalidItems
  | okSave (itemCount : Nat)
  | saveError
deriving DecidableEq, Repr

/-- The `catch (saveError)` recovery: copy the backup of this request back
over the snapshot if that backup exists, i.e. if a snapshot existed before
the save. -/
def restoreFromBackup (stOld st2 : SrvVaultState) : SrvVaultState :=
  match stOld.snapshot with
  | some s => { st2 with snapshot := some s }
  | none => st2

/-- The newest-first order on backup files: `sort().reverse()` on the
13-digit millisecond-timestamp file names, whose lexicographic order is the
numeric order. -/
def backupGE (a b : Nat × EncObj (List SItem)) : Prop := b.1 ≤ a.1

instance : DecidableRel backupGE := fun a b => Nat.decLe b.1 a.1

instance : IsTotal (Nat × EncObj (List SItem)) backupGE :=
  ⟨fun a b => le_total b.1 a.1⟩

instance : IsTrans (Nat × EncObj (List SItem)) backupGE :=
  ⟨fun _ _ _ hab hbc => le_trans hbc hab⟩

/-- Backup pruning: sort the backup files newest-first and, when more than
five exist, delete all but the first five. -/
def pruneBackups (l : List (Nat × EncObj (List SItem))) :
    List (Nat × EncObj (List SItem)) :=
  let sorted := List.insertionSort backupGE l
  if 5 < l.length then sorted.take 5 else l

/-- `POST /api/vault-items`: validate ids, back up any existing snapshot
under the current timestamp, encrypt and write the new snapshot, read it
back (`fault` injects the read-back value seen by the verification step;
`none` means the verification reads exactly what was written), verify the
decrypted count, restore the backup on failure, prune old backups on
success. -/
def postVaultItems (st : SrvVaultState) (items : List SItem)
    (masterPassword : String) (now : Nat) (saltR ivR : String)
    (fault : Option (EncObj (List SItem))) : SaveResp × SrvVaultState :=
  if items.any (fun it => !(truthyStringId it.id)) then
    (SaveResp.invalidItems, st)
  else
    let backedUp : SrvVaultState :=
      match st.snapshot with
      | some s => { st with backups := st.backups ++ [(now, s)] }
      | none => st
    let written := FileEncryption.encrypt items masterPassword saltR ivR
    let st2 : SrvVaultState := { backedUp with snapshot := some written }
    let readBack := fault.getD written
    match FileEncryption.decryptJson readBack masterPassword with
    | some verifiedItems =>
      if verifiedItems.length = items.length then
        (SaveResp.okSave items.length, { st2 with backups := pruneBackups st2.backups })
      else
        (SaveResp.saveError, restoreFromBackup st st2)
    | none => (SaveResp.saveError, restoreFromBackup st st2)

/-! ### PUT /api/vault-items/:itemId: single-item upsert -/

/-- The `findIndex`/update/push body of the PUT handler: the first stored
item whose id strictly equals the string path parameter is merged with the
update and its id forced to the path parameter; if none matches, the update
is appended with that id. -/
def putList : List SItem → String → SItem → List SItem
  | [], itemId, item => [{ item with id := JsId.str itemId }]
  | i :: rest, itemId, item =>
    if i.id = JsId.str itemId then
      { id := JsId.str itemId, fields := spreadFields i.fields item.fields } :: rest
    else i :: putList rest itemId item

/-- Response of the single-item update endpoint. -/
inductive PutResp
  | okPut (itemId : String)
  | errorPut
deriving DecidableEq, Repr

/-- `PUT /api/vault-items/:itemId`: load and decrypt the stored snapshot
(treating an absent file as the empty list), upsert, re-encrypt and store.
A snapshot that does not decrypt under the caller's password makes the
handler fail with a 500 and leaves the store unchanged. -/
def putVaultItem (st : Option (EncObj (List SItem))) (itemId : String)
    (item : SItem) (masterPassword saltR ivR : String) :
    PutResp × Option (EncObj (List SItem)) :=
  match st with
  | none =>
    let newItems := putList [] itemId item
    (PutResp.okPut itemId, some (FileEncryption.encrypt newItems masterPassword saltR ivR))
  | some e =>
    match FileEncryption.decryptJson e masterPassword with
    | none => (PutResp.errorPut, st)
    | some items =>
      let newItems := putList items itemId item
      (PutResp.okPut itemId,
        some (FileEncryption.encrypt newItems masterPassword saltR ivR))

/-! ### Client snapshot push (`vaultDB.syncVaultItemsToServer`) -/

/-- `String(item.id)` on `number | undefined`. -/
def jsStringOfId : Option Nat → String
  | some n => toString n
  | none => "undefined"

/-- The non-id fields of a client item as sent to the server. -/
def clientFields (it : VItem) : List (String × String) :=
  [("name", it.name), ("category", catStr it.category)]

/-- One item of the client push payload: `{...item, id: String(item.id)}`. -/
def itemForServer (it : VItem) : SItem :=
  { id := JsId.str (jsStringOfId it.id), fields := clientFields it }

/-- The payload `items.map(item => ({...item, id: String(item.id)}))` that
`syncVaultItemsToServer` passes to `saveVaultItems`. -/
def itemsForServer (l : List VItem) : List SItem := l.map itemForServer

/-! ### Files: upload and download with checksum verification -/

/-- SHA-256 modelled as an ideal (injective, never-empty) digest. -/
def sha256 (s : String) : String := String.mk ('#' :: s.data)

/-- File metadata as stored (encrypted) next to the file body. -/
structure FMeta where
  id : String
  name : String
  mimeType : String
  size : Nat
  description : String
  category : String
  uploadedAt : String
  checksum : String
deriving DecidableEq, Repr

/-- `POST /api/files/upload` after the multer step: base64-encode the bytes
(`b64` is that base64 text), encrypt them, and encrypt a metadata record
carrying `checksum = SHA256(base64 text)`.  Returns the two stored
artifacts. -/
def uploadFile (b64 masterPassword fileId fname mime desc cat uploadedAt : String)
    (size : Nat) (saltF ivF saltM ivM : String) : EncObj String × EncObj FMeta :=
  let metadata : FMeta :=
    { id := fileId, name := fname, mimeType := mime, size := size,
      description := desc, category := cat, uploadedAt := uploadedAt,
      checksum := sha256 b64 }
  (FileEncryption.encrypt b64 masterPassword saltF ivF,
    FileEncryption.encrypt metadata masterPassword saltM ivM)

/-- Result of `GET /api/files/:fileId` on an existing file: the decoded
bytes are represented by their base64 text. -/
inductive DlResult
  | okDownload (b64 : String) (meta : FMeta)
  | integrityError
  | metaError
deriving DecidableEq, Repr

/-- `GET /api/files/:fileId` for a stored file: decrypt the metadata first
(its failure is a decryption error, not handled here beyond `metaError`),
decrypt the body, recompute the checksum over the recovered base64 text and
compare it with the stored checksum when one exists. -/
def downloadFile (encFile : EncObj String) (encMeta : EncObj FMeta)
    (masterPassword : String) : DlResult :=
  match FileEncryption.decryptJson encMeta masterPassword with
  | none => DlResult.metaError
  | some metadata =>
    let fileDataBase64 := FileEncryption.decryptString encFile masterPassword
    if metadata.checksum ≠ "" ∧ sha256 fileDataBase64 ≠ metadata.checksum then
      DlResult.integrityError
    else
      DlResult.okDownload fileDataBase64 metadata

/-! ## Lemmas -/

theorem splitCh_ne_nil (sep : Char) (l : List Char) : splitCh sep l ≠ [] := by
  cases l with
  | nil => simp [splitCh]
  | cons c rest =>
    simp only [splitCh]
    cases h : splitCh sep rest with
    | nil => simp
    | cons t ts =>
      by_cases hc : c = sep <;> simp [hc]

theorem splitCh_sepfree {sep : Char} {l : List Char}
    (h : ∀ c ∈ l, c ≠ sep) : splitCh sep l = [l] := by
  induction l with
  | nil => rfl
  | cons c rest ih =>
    have hrest : splitCh sep rest = [rest] := ih (fun x hx => h x (List.mem_cons_of_mem _ hx))
    have hc : c ≠ sep := h c (List.mem_cons_self _ _)
    simp [splitCh, hrest, hc]

theorem splitCh_append_sep {sep : Char} {a : List Char}
    (h : ∀ c ∈ a, c ≠ sep) (r : List Char) :
    splitCh sep (a ++ sep :: r) = a :: splitCh sep r := by
  induction a with
  | nil =>
    simp only [List.nil_append, splitCh]
    cases hr : splitCh sep r with
    | nil => exact absurd hr (splitCh_ne_nil sep r)
    | cons t ts => simp
  | cons c a' ih =>
    have hc : c ≠ sep := h c (List.mem_cons_self _ _)
    have ih' := ih (fun x hx => h x (List.mem_cons_of_mem _ hx))
    rw [List.cons_append]
    simp only [splitCh]
    rw [ih']
    simp [hc]

theorem unesc_escape_pair (d out : Char) (rest : List Char)
    (h : (d = 'p' ∧ out = '%') ∨ (d = 'c' ∧ out = ':') ∨ (d = 'u' ∧ out = '_')) :
    unesc ('%' :: d :: rest) = (unesc rest).map (fun l => out :: l) := by
  rcases h with ⟨rfl, rfl⟩ | ⟨rfl, rfl⟩ | ⟨rfl, rfl⟩ <;> simp [unesc]

theorem unesc_cons_other {c : Char} (h1 : c ≠ '%') (h2 : c ≠ ':') (h3 : c ≠ '_')
    (rest : List Char) :
    unesc (c :: rest) = (unesc rest).map (fun l => c :: l) := by
  unfold unesc
  simp only [h1, h2, h3, if_false, or_self, ite_false]
  cases rest with
  | nil => rfl
  | cons d r2 =>
    conv_lhs => rw [unesc.eq_def]

theorem unesc_esc (l : List Char) : unesc (esc l) = some (l) := by
  induction l with
  | nil => rfl
  | cons c rest ih =>
    by_cases h1 : c = '%'
    · subst h1
      rw [esc, if_pos rfl, unesc_escape_pair 'p' '%' _ (Or.inl ⟨rfl, rfl⟩), ih]
      rfl
    · by_cases h2 : c = ':'
      · subst h2
        rw [esc, if_neg h1, if_pos rfl,
          unesc_escape_pair 'c' ':' _ (Or.inr (Or.inl ⟨rfl, rfl⟩)), ih]
        rfl
      · by_cases h3 : c = '_'
        · subst h3
          rw [esc, if_neg h1, if_neg h2, if_pos rfl,
            unesc_escape_pair 'u' '_' _ (Or.inr (Or.inr ⟨rfl, rfl⟩)), ih]
          rfl
        · rw [esc, if_neg h1, if_neg h2, if_neg h3, unesc_cons_other h1 h2 h3, ih]
          rfl

theorem esc_sepfree (l : List Char) : ∀ c ∈ esc l, c ≠ ':' ∧ c ≠ '_' := by
  induction l with
  | nil => intro c hc; simp [esc] at hc
  | cons c rest ih =>
    intro x hx
    by_cases h1 : c = '%'
    · subst h1
      rw [esc, if_pos rfl] at hx
      rcases List.mem_cons.mp hx with rfl | hx
      · exact ⟨by decide, by decide⟩
      rcases List.mem_cons.mp hx with rfl | hx
      · exact ⟨by decide, by decide⟩
      exact ih x hx
    · by_cases h2 : c = ':'
      · subst h2
        rw [esc, if_neg h1, if_pos rfl] at hx
        rcases List.mem_cons.mp hx with rfl | hx
        · exact ⟨by decide, by decide⟩
        rcases List.mem_cons.mp hx with rfl | hx
        · exact ⟨by decide, by decide⟩
        exact ih x hx
      · by_cases h3 : c = '_'
        · subst h3
          rw [esc, if_neg h1, if_neg h2, if_pos rfl] at hx
          rcases List.mem_cons.mp hx with rfl | hx
          · exact ⟨by decide, by decide⟩
          rcases List.mem_cons.mp hx with rfl | hx
          · exact ⟨by decide, by decide⟩
          exact ih x hx
        · rw [esc, if_neg h1, if_neg h2, if_neg h3] at hx
          rcases List.mem_cons.mp hx with rfl | hx
          · exact ⟨h2, h3⟩
          exact ih x hx

@[simp] theorem string_mk_data (s : String) : String.mk s.data = s := by
  cases s; rfl

theorem string_data_append (a b : String) : (a ++ b).data = a.data ++ b.data := rfl

namespace VaultCrypto

theorem hexDigit_lt16_ne_colon : ∀ n : Nat, n < 16 → hexDigit n ≠ ':' := by decide

theorem hexChars_ne_colon (k n : Nat) : ∀ c ∈ hexChars k n, c ≠ ':' := by
  induction k generalizing n with
  | zero => intro c hc; simp [hexChars] at hc
  | succ k ih =>
    intro c hc
    simp only [hexChars, List.mem_append, List.mem_singleton] at hc
    rcases hc with hc | rfl
    · exact ih _ c hc
    · exact hexDigit_lt16_ne_colon _ (Nat.mod_lt _ (by norm_num))

theorem generateSalt_ne_colon (e : Nat) : ∀ c ∈ (generateSalt e).data, c ≠ ':' :=
  hexChars_ne_colon 64 e

theorem generateIV_ne_colon (e : Nat) : ∀ c ∈ (generateIV e).data, c ≠ ':' :=
  hexChars_ne_colon 32 e

theorem aesEncrypt_ne_colon (key : Key) (iv data : String) :
    ∀ c ∈ (aesEncrypt key iv data).data, c ≠ ':' := by
  intro x hx
  have hx2 : x ∈ esc key.1.data ++ ('_' :: (esc key.2.data ++ ('_' :: (esc iv.data
      ++ ('_' :: esc data.data))))) := hx
  rcases List.mem_append.mp hx2 with h | h
  · exact (esc_sepfree _ x h).1
  rcases List.mem_cons.mp h with rfl | h
  · decide
  rcases List.mem_append.mp h with h | h
  · exact (esc_sepfree _ x h).1
  rcases List.mem_cons.mp h with rfl | h
  · decide
  rcases List.mem_append.mp h with h | h
  · exact (esc_sepfree _ x h).1
  rcases List.mem_cons.mp h with rfl | h
  · decide
  exact (esc_sepfree _ x h).1

/-- The underscore-joined quad splits back into its four components. -/
theorem splitCh_quad (a b c d : List Char) :
    splitCh '_' (esc a ++ ('_' :: (esc b ++ ('_' :: (esc c ++ ('_' :: esc d))))))
      = [esc a, esc b, esc c, esc d] := by
  have ha := fun x hx => (esc_sepfree a x hx).2
  have hb := fun x hx => (esc_sepfree b x hx).2
  have hc := fun x hx => (esc_sepfree c x hx).2
  have hd := fun x hx => (esc_sepfree d x hx).2
  rw [splitCh_append_sep ha, splitCh_append_sep hb, splitCh_append_sep hc,
    splitCh_sepfree hd]

/-- Ideal-cipher round trip with the matching key and IV. -/
theorem aesDecrypt_aesEncrypt (key : Key) (iv data : String) :
    aesDecrypt key iv (aesEncrypt key iv data) = data := by
  unfold aesDecrypt aesEncrypt
  rw [show (String.mk (esc key.1.data ++ ('_' :: (esc key.2.data ++ ('_' :: (esc iv.data
        ++ ('_' :: esc data.data))))))).data
      = esc key.1.data ++ ('_' :: (esc key.2.data ++ ('_' :: (esc iv.data
        ++ ('_' :: esc data.data))))) from rfl]
  rw [splitCh_quad]
  simp only [unesc_esc, string_mk_data]
  simp

/-- Ideal-cipher decryption with a wrong key or IV yields `""`. -/
theorem aesDecrypt_aesEncrypt_ne (key key2 : Key) (iv iv2 data : String)
    (h : ¬(key = key2 ∧ iv = iv2)) :
    aesDecrypt key2 iv2 (aesEncrypt key iv data) = "" := by
  unfold aesDecrypt aesEncrypt
  rw [show (String.mk (esc key.1.data ++ ('_' :: (esc key.2.data ++ ('_' :: (esc iv.data
        ++ ('_' :: esc data.data))))))).data
      = esc key.1.data ++ ('_' :: (esc key.2.data ++ ('_' :: (esc iv.data
        ++ ('_' :: esc data.data))))) from rfl]
  rw [splitCh_quad]
  simp only [unesc_esc, string_mk_data]
  have hcond : ¬((key.1, key.2) = key2 ∧ iv = iv2) := by
    intro hcon
    exact h ⟨hcon.1, hcon.2⟩
  simp [hcond]
  intro h1 h2
  exact absurd ⟨h1, h2⟩ h

theorem decryptInner_malformed (e w : String)
    (h : (jsSplit ':' e).length ≠ 3) :
    decryptInner e w = Except.error invalidFormatMsg := by
  unfold decryptInner
  cases hl : jsSplit ':' e with
  | nil => rfl
  | cons a t =>
    cases t with
    | nil => rfl
    | cons b t2 =>
      cases t2 with
      | nil => rfl
      | cons c t3 =>
        cases t3 with
        | nil =>
          exfalso
          rw [hl] at h
          simp at h
        | cons d t4 => rfl

theorem decrypt_malformed (e w : String)
    (h : (jsSplit ':' e).length ≠ 3) :
    decrypt e w = Except.error decryptErrMsg := by
  unfold decrypt
  rw [decryptInner_malformed e w h]

theorem decrypt_wellformed (e w salt iv ct : String)
    (h : jsSplit ':' e = [salt, iv, ct]) :
    decrypt e w =
      (if aesDecrypt (deriveKey w salt) iv ct = ""
       then Except.error decryptErrMsg
       else Except.ok (aesDecrypt (deriveKey w salt) iv ct)) := by
  unfold decrypt decryptInner
  rw [h]
  by_cases hz : aesDecrypt (deriveKey w salt) iv ct = "" <;> simp [hz]

/-- An envelope built by `encryptWith` splits on `':'` into exactly its salt,
IV and ciphertext, provided salt and IV are colon-free (as the generated hex
salt and IV always are). -/
theorem jsSplit_encryptWith (data masterPassword salt iv : String)
    (hs : ∀ c ∈ salt.data, c ≠ ':') (hi : ∀ c ∈ iv.data, c ≠ ':') :
    jsSplit ':' (encryptWith data masterPassword salt iv)
      = [salt, iv, aesEncrypt (deriveKey masterPassword salt) iv data] := by
  unfold jsSplit encryptWith
  have hdata : (salt ++ ":" ++ iv ++ ":"
        ++ aesEncrypt (deriveKey masterPassword salt) iv data).data
      = salt.data ++ (':' :: (iv.data ++ (':'
        :: (aesEncrypt (deriveKey masterPassword salt) iv data).data))) := by
    show (((salt.data ++ [':']) ++ iv.data) ++ [':'])
        ++ (aesEncrypt (deriveKey masterPassword salt) iv data).data = _
    simp [List.append_assoc]
  rw [hdata, splitCh_append_sep hs, splitCh_append_sep hi,
    splitCh_sepfree (aesEncrypt_ne_colon _ _ _)]
  simp

/-- Round trip through `encryptWith`/`decrypt` for a non-empty plaintext. -/
theorem decrypt_encryptWith (data masterPassword salt iv : String)
    (hd : data ≠ "")
    (hs : ∀ c ∈ salt.data, c ≠ ':') (hi : ∀ c ∈ iv.data, c ≠ ':') :
    decrypt (encryptWith data masterPassword salt iv) masterPassword
      = Except.ok data := by
  unfold decrypt decryptInner
  rw [jsSplit_encryptWith data masterPassword salt iv hs hi]
  simp [aesDecrypt_aesEncrypt, hd]

/-- Decrypting an `encryptWith` envelope with the wrong password fails inside
the `try` block with the empty-plaintext error. -/
theorem decryptInner_encryptWith_wrong (data w1 w2 salt iv : String)
    (hw : w1 ≠ w2)
    (hs : ∀ c ∈ salt.data, c ≠ ':') (hi : ∀ c ∈ iv.data, c ≠ ':') :
    decryptInner (encryptWith data w1 salt iv) w2 = Except.error emptyPlainMsg := by
  unfold decryptInner
  rw [jsSplit_encryptWith data w1 salt iv hs hi]
  have hkey : ¬(deriveKey w1 salt = deriveKey w2 salt ∧ iv = iv) := by
    intro hcon
    exact hw (congrArg Prod.fst hcon.1)
  have hz : aesDecrypt (deriveKey w2 salt) iv
      (aesEncrypt (deriveKey w1 salt) iv data) = "" :=
    aesDecrypt_aesEncrypt_ne _ _ _ _ _ hkey
  simp [hz]

/-- Decrypting an `encryptWith` envelope with the wrong password fails with
the generic decryption error. -/
theorem decrypt_encryptWith_wrong (data w1 w2 salt iv : String)
    (hw : w1 ≠ w2)
    (hs : ∀ c ∈ salt.data, c ≠ ':') (hi : ∀ c ∈ iv.data, c ≠ ':') :
    decrypt (encryptWith data w1 salt iv) w2 = Except.error decryptErrMsg := by
  unfold decrypt
  rw [decryptInner_encryptWith_wrong data w1 w2 salt iv hw hs hi]

/-- Round trip through `encrypt`/`decrypt` for a non-empty plaintext. -/
theorem decrypt_encrypt (data masterPassword : String) (e1 e2 : Nat)
    (hd : data ≠ "") :
    decrypt (encrypt data masterPassword e1 e2) masterPassword = Except.ok data :=
  decrypt_encryptWith data masterPassword _ _ hd
    (generateSalt_ne_colon e1) (generateIV_ne_colon e2)

/-- Decrypting `encrypt`'s output with a different password fails. -/
theorem decrypt_encrypt_wrong (data w1 w2 : String) (e1 e2 : Nat) (hw : w1 ≠ w2) :
    decrypt (encrypt data w1 e1 e2) w2 = Except.error decryptErrMsg :=
  decrypt_encryptWith_wrong data w1 w2 _ _ hw
    (generateSalt_ne_colon e1) (generateIV_ne_colon e2)

theorem getS_decryptVaultItem (item : VItem) (masterPassword : String) :
    ∀ f : SField, getS f (decryptVaultItem item masterPassword)
      = decField masterPassword (getS f item) := by
  intro f
  cases f <;> rfl

theorem decryptVaultItem_clear (item : VItem) (masterPassword : String) :
    (decryptVaultItem item masterPassword).id = item.id
    ∧ (decryptVaultItem item masterPassword).name = item.name
    ∧ (decryptVaultItem item masterPassword).category = item.category
    ∧ (decryptVaultItem item masterPassword).links = item.links
    ∧ (decryptVaultItem item masterPassword).createdAt = item.createdAt
    ∧ (decryptVaultItem item masterPassword).updatedAt = item.updatedAt
    ∧ (decryptVaultItem item masterPassword).isFavorite = item.isFavorite :=
  ⟨rfl, rfl, rfl, rfl, rfl, rfl, rfl⟩

theorem getS_encryptVaultItem (item : VItem) (masterPassword : String)
    (entropies : SField → Nat × Nat) :
    ∀ f : SField, getS f (encryptVaultItem item masterPassword entropies)
      = encField masterPassword (entropies f) (getS f item) := by
  intro f
  cases f <;> rfl

theorem encryptVaultItem_clear (item : VItem) (masterPassword : String)
    (entropies : SField → Nat × Nat) :
    (encryptVaultItem item masterPassword entropies).id = item.id
    ∧ (encryptVaultItem item masterPassword entropies).name = item.name
    ∧ (encryptVaultItem item masterPassword entropies).category = item.category
    ∧ (encryptVaultItem item masterPassword entropies).links = item.links
    ∧ (encryptVaultItem item masterPassword entropies).createdAt = item.createdAt
    ∧ (encryptVaultItem item masterPassword entropies).updatedAt = item.updatedAt
    ∧ (encryptVaultItem item masterPassword entropies).isFavorite = item.isFavorite :=
  ⟨rfl, rfl, rfl, rfl, rfl, rfl, rfl⟩

end VaultCrypto

namespace vaultDB

theorem dupIds_subset_ids (items : List VItem) (seen : List String) :
    ∀ i ∈ dupIds items seen, i ∈ items.map idOf := by
  induction items generalizing seen with
  | nil => intro i hi; simp [dupIds] at hi
  | cons it rest ih =>
    intro i hi
    by_cases hk : keyOf it ∈ seen
    · rw [dupIds, if_pos hk] at hi
      rcases List.mem_cons.mp hi with rfl | hi
      · exact List.mem_cons_self _ _
      · exact List.mem_cons_of_mem _ (ih seen i hi)
    · rw [dupIds, if_neg hk] at hi
      exact List.mem_cons_of_mem _ (ih _ i hi)

theorem filter_dupIds_eq_keepFirst (items : List VItem) (seen : List String)
    (hid : (items.map idOf).Nodup) :
    items.filter (fun it => decide (idOf it ∉ dupIds items seen))
      = keepFirstByKey seen items := by
  induction items generalizing seen with
  | nil => rfl
  | cons it rest ih =>
    have hid' : (rest.map idOf).Nodup := (List.nodup_cons.mp hid).2
    have hidhead : idOf it ∉ rest.map idOf := (List.nodup_cons.mp hid).1
    by_cases hk : keyOf it ∈ seen
    · rw [dupIds, if_pos hk, keepFirstByKey, if_pos hk]
      rw [List.filter_cons]
      have hmem : idOf it ∈ idOf it :: dupIds rest seen := List.mem_cons_self _ _
      simp only [hmem, not_true, decide_False]
      have hcong : ∀ x ∈ rest,
          decide (idOf x ∉ idOf it :: dupIds rest seen)
            = decide (idOf x ∉ dupIds rest seen) := by
        intro x hx
        have hxne : idOf x ≠ idOf it := by
          intro he
          exact hidhead (he ▸ List.mem_map_of_mem idOf hx)
        by_cases hd : idOf x ∈ dupIds rest seen
        · simp [hd]
        · simp [hd, hxne]
      rw [List.filter_congr hcong, ih seen hid']
      simp
    · rw [dupIds, if_neg hk, keepFirstByKey, if_neg hk]
      rw [List.filter_cons]
      have hnot : idOf it ∉ dupIds rest (keyOf it :: seen) := by
        intro hin
        exact hidhead (dupIds_subset_ids rest _ _ hin)
      simp only [hnot, not_false_iff, decide_True]
      rw [ih _ hid']
      simp

/-- Keys produced by `keepFirstByKey` avoid the ambient `seen` set. -/
theorem keepFirst_keys_not_seen (items : List VItem) (seen : List String) :
    ∀ it ∈ keepFirstByKey seen items, keyOf it ∉ seen := by
  induction items generalizing seen with
  | nil => intro it hit; simp [keepFirstByKey] at hit
  | cons x rest ih =>
    intro it hit
    by_cases hk : keyOf x ∈ seen
    · rw [keepFirstByKey, if_pos hk] at hit
      exact ih seen it hit
    · rw [keepFirstByKey, if_neg hk] at hit
      rcases List.mem_cons.mp hit with rfl | hit
      · exact hk
      · have := ih _ it hit
        intro hs
        exact this (List.mem_cons_of_mem _ hs)

/-- The keys of the kept items are pairwise distinct. -/
theorem keepFirst_keys_nodup (items : List VItem) (seen : List String) :
    ((keepFirstByKey seen items).map keyOf).Nodup := by
  induction items generalizing seen with
  | nil => simp [keepFirstByKey]
  | cons x rest ih =>
    by_cases hk : keyOf x ∈ seen
    · rw [keepFirstByKey, if_pos hk]
      exact ih seen
    · rw [keepFirstByKey, if_neg hk]
      rw [List.map_cons, List.nodup_cons]
      constructor
      · intro hin
        rcases List.mem_map.mp hin with ⟨y, hy, hky⟩
        have := keepFirst_keys_not_seen rest (keyOf x :: seen) y hy
        exact this (hky ▸ List.mem_cons_self _ _)
      · exact ih _

/-- A list with pairwise-distinct keys, none already seen, yields no
duplicates. -/
theorem dupIds_nil_of_nodup_keys (items : List VItem) (seen : List String)
    (hkeys : (items.map keyOf).Nodup)
    (hseen : ∀ it ∈ items, keyOf it ∉ seen) :
    dupIds items seen = [] := by
  induction items generalizing seen with
  | nil => rfl
  | cons x rest ih =>
    have hk : keyOf x ∉ seen := hseen x (List.mem_cons_self _ _)
    rw [dupIds, if_neg hk]
    apply ih
    · exact (List.nodup_cons.mp hkeys).2
    · intro it hit
      intro hin
      rcases List.mem_cons.mp hin with he | hin2
      · exact (List.nodup_cons.mp hkeys).1 (he ▸ List.mem_map_of_mem keyOf hit)
      · exact hseen it (List.mem_cons_of_mem _ hit) hin2

/-- A second `removeDuplicateItems` pass on an already-deduped collection
removes nothing. -/
theorem removeDuplicateItems_idem (items : List VItem)
    (hid : (items.map idOf).Nodup) :
    (removeDuplicateItems (removeDuplicateItems items).2).1 = 0
    ∧ (removeDuplicateItems (removeDuplicateItems items).2).2
        = (removeDuplicateItems items).2 := by
  have hkept : (removeDuplicateItems items).2 = keepFirstByKey [] items := by
    unfold removeDuplicateItems
    exact filter_dupIds_eq_keepFirst items [] hid
  have hdup2 : dupIds (removeDuplicateItems items).2 [] = [] := by
    rw [hkept]
    exact dupIds_nil_of_nodup_keys _ _ (keepFirst_keys_nodup items [])
      (fun it _ hin => (List.not_mem_nil _ hin))
  constructor
  · show (dupIds (removeDuplicateItems items).2 []).length = 0
    rw [hdup2]
    rfl
  · show List.filter
        (fun it => decide (idOf it ∉ dupIds (removeDuplicateItems items).2 []))
        (removeDuplicateItems items).2 = (removeDuplicateItems items).2
    rw [hdup2]
    simp

theorem foldl_dbAddRaw (l : List VItem) (st : DBState) :
    l.foldl (fun acc it => dbAddRaw acc it) st
      = { items := st.items ++ stampFrom st.nextId l,
          nextId := st.nextId + l.length } := by
  induction l generalizing st with
  | nil => simp [stampFrom]
  | cons it rest ih =>
    rw [List.foldl_cons, ih]
    simp [dbAddRaw, stampFrom]
    omega

theorem keyOf_stamp (it : VItem) (n : Nat) : keyOf { it with id := some n } = keyOf it := rfl

theorem stampFrom_map_keyOf (l : List VItem) (n : Nat) :
    (stampFrom n l).map keyOf = l.map keyOf := by
  induction l generalizing n with
  | nil => rfl
  | cons it rest ih =>
    rw [stampFrom, List.map_cons, List.map_cons, keyOf_stamp, ih]

theorem stampFrom_length (l : List VItem) (n : Nat) :
    (stampFrom n l).length = l.length := by
  induction l generalizing n with
  | nil => rfl
  | cons it rest ih => rw [stampFrom, List.length_cons, List.length_cons, ih]

theorem getAllItems_length (masterPassword : String) (st : DBState) :
    (getAllItems masterPassword st).1.length
      = (removeDuplicateItems st.items).2.length := by
  unfold getAllItems
  have hperm : (sortByCreatedDesc (removeDuplicateItems st.items).2).length
      = (removeDuplicateItems st.items).2.length :=
    (List.perm_insertionSort _ _).length_eq
  by_cases h : masterPassword = "" <;> simp [h, hperm]

/-- On a collection whose keys are pairwise distinct, the cleanup removes
nothing. -/
theorem removeDuplicateItems_nodup_keys (items : List VItem)
    (hkeys : (items.map keyOf).Nodup) :
    removeDuplicateItems items = (0, items) := by
  have hdup : dupIds items [] = [] :=
    dupIds_nil_of_nodup_keys items [] hkeys (fun it _ hin => List.not_mem_nil _ hin)
  unfold removeDuplicateItems
  rw [hdup]
  simp

theorem foldl_sync_add (l : List VItem) (st : DBState) :
    l.foldl (fun acc it => dbAddRaw acc { it with id := none }) st
      = { items := st.items ++ stampFrom st.nextId l,
          nextId := st.nextId + l.length } := by
  induction l generalizing st with
  | nil => simp [stampFrom]
  | cons it rest ih =>
    rw [List.foldl_cons, ih]
    unfold dbAddRaw
    simp [stampFrom]
    omega

theorem syncFromServer_ok_state (serverItems : List VItem) (st : DBState) :
    syncVaultItemsFromServer (Except.ok serverItems) st
      = ({ success := true, synced := serverItems.length },
         { items := (removeDuplicateItems (stampFrom st.nextId serverItems)).2,
           nextId := st.nextId + serverItems.length }) := by
  have hfold := foldl_sync_add serverItems { st with items := [] }
  simp only [syncVaultItemsFromServer]
  rw [hfold]
  simp

end vaultDB

namespace FileEncryption

theorem decryptJson_encrypt {α : Type} (data : α) (masterPassword saltR ivR : String) :
    decryptJson (encrypt data masterPassword saltR ivR) masterPassword = some data := by
  simp [decryptJson, encrypt]

theorem decryptString_encrypt (data masterPassword saltR ivR : String) :
    decryptString (encrypt data masterPassword saltR ivR) masterPassword = data := by
  simp [decryptString, encrypt]

end FileEncryption

theorem sha256_inj {a b : String} (h : sha256 a = sha256 b) : a = b := by
  unfold sha256 at h
  have hdata := congrArg String.data h
  simp only at hdata
  cases a with
  | mk la =>
    cases b with
    | mk lb =>
      simp at hdata
      simp [hdata]

theorem sha256_ne_empty (s : String) : sha256 s ≠ "" := by
  unfold sha256
  intro h
  have hdata := congrArg String.data h
  simp at hdata

theorem pruneBackups_length_le (l : List (Nat × EncObj (List SItem)))
    (h : l.length ≤ 5 ∨ 5 < l.length) :
    (pruneBackups l).length ≤ 5 := by
  unfold pruneBackups
  rcases h with h | h
  · rw [if_neg (by omega)]
    exact h
  · rw [if_pos h]
    have := List.length_take 5 (List.insertionSort backupGE l)
    omega

theorem pruneBackups_subset (l : List (Nat × EncObj (List SItem))) :
    ∀ x ∈ pruneBackups l, x ∈ l := by
  intro x hx
  unfold pruneBackups at hx
  by_cases h : 5 < l.length
  · rw [if_pos h] at hx
    have hx2 : x ∈ List.insertionSort backupGE l := List.mem_of_mem_take hx
    exact (List.perm_insertionSort backupGE l).mem_iff.mp hx2
  · rw [if_neg h] at hx
    exact hx

theorem pruneBackups_drop_older (l : List (Nat × EncObj (List SItem))) :
    ∀ d ∈ l, d ∉ pruneBackups l → ∀ k ∈ pruneBackups l, d.1 ≤ k.1 := by
  intro d hd hdrop k hk
  unfold pruneBackups at hdrop hk
  by_cases h : 5 < l.length
  · rw [if_pos h] at hdrop hk
    have hsorted : List.Sorted backupGE (List.insertionSort backupGE l) :=
      List.sorted_insertionSort backupGE l
    have hsplit : List.insertionSort backupGE l
        = (List.insertionSort backupGE l).take 5
          ++ (List.insertionSort backupGE l).drop 5 :=
      (List.take_append_drop 5 _).symm
    have hdmem : d ∈ List.insertionSort backupGE l :=
      (List.perm_insertionSort backupGE l).mem_iff.mpr hd
    have hddrop : d ∈ (List.insertionSort backupGE l).drop 5 := by
      rcases (List.mem_append.mp (hsplit ▸ hdmem)) with h1 | h1
      · exact absurd h1 hdrop
      · exact h1
    have hpair : ∀ a ∈ (List.insertionSort backupGE l).take 5,
        ∀ b ∈ (List.insertionSort backupGE l).drop 5, backupGE a b := by
      have := hsplit ▸ hsorted
      rw [List.Sorted, List.pairwise_append] at this
      exact this.2.2
    exact hpair k hk d hddrop
  · rw [if_neg h] at hdrop
    exact absurd hd hdrop

theorem pruneBackups_newest_mem (l : List (Nat × EncObj (List SItem)))
    (x : Nat × EncObj (List SItem)) (hlt : ∀ y ∈ l, y.1 < x.1) :
    x ∈ pruneBackups (l ++ [x]) := by
  have hxl : x ∈ l ++ [x] := List.mem_append_right l (List.mem_singleton_self x)
  unfold pruneBackups
  by_cases h : 5 < (l ++ [x]).length
  · rw [if_pos h]
    set L := l ++ [x] with hL
    set sorted := List.insertionSort backupGE L with hsorteddef
    have hperm : sorted.Perm L := List.perm_insertionSort backupGE L
    have hsorted : List.Sorted backupGE sorted := List.sorted_insertionSort backupGE L
    by_contra hxnot
    have hxmem : x ∈ sorted := hperm.mem_iff.mpr hxl
    have hsplit : sorted = sorted.take 5 ++ sorted.drop 5 :=
      (List.take_append_drop 5 _).symm
    have hxdrop : x ∈ sorted.drop 5 := by
      rcases List.mem_append.mp (hsplit ▸ hxmem) with h1 | h1
      · exact absurd h1 hxnot
      · exact h1
    have hpair : ∀ a ∈ sorted.take 5, ∀ b ∈ sorted.drop 5, backupGE a b := by
      have hs2 := hsplit ▸ hsorted
      rw [List.Sorted, List.pairwise_append] at hs2
      exact hs2.2.2
    have htake_eq : ∀ a ∈ sorted.take 5, a = x := by
      intro a ha
      have hax : x.1 ≤ a.1 := hpair a ha x hxdrop
      have haL : a ∈ L := hperm.mem_iff.mp (List.mem_of_mem_take ha)
      rcases List.mem_append.mp haL with h1 | h1
      · exact absurd hax (not_le.mpr (hlt a h1))
      · exact List.mem_singleton.mp h1
    have hlen5 : (sorted.take 5).length = 5 := by
      rw [List.length_take]
      have : sorted.length = L.length := hperm.length_eq
      omega
    set p : (Nat × EncObj (List SItem)) → Bool := fun y => decide (y = x) with hp
    have hcount_take : 5 ≤ sorted.countP p := by
      have hsub : List.Sublist (sorted.take 5) sorted := List.take_sublist 5 sorted
      have hc1 : (sorted.take 5).countP p ≤ sorted.countP p := hsub.countP_le p
      have hc2 : (sorted.take 5).countP p = 5 := by
        rw [List.countP_eq_length.mpr]
        · exact hlen5
        · intro a ha
          simp [hp, htake_eq a ha]
      omega
    have hxnotl : x ∉ l := fun hmem => absurd (hlt x hmem) (lt_irrefl _)
    have hcount_L : L.countP p = 1 := by
      rw [hL, List.countP_append]
      have hzero : l.countP p = 0 := by
        rw [List.countP_eq_zero]
        intro a ha
        simp [hp]
        intro he
        exact hxnotl (he ▸ ha)
      rw [hzero]
      simp [hp, List.countP_cons]
    have : sorted.countP p = L.countP p := hperm.countP_eq p
    omega
  · show x ∈ (if 5 < (l ++ [x]).length then
        (List.insertionSort backupGE (l ++ [x])).take 5 else l ++ [x])
    rw [if_neg h]
    exact hxl

/-! ## Claim theorems -/

/-- C1 (amended): for every NON-EMPTY plaintext and every password,
decrypting the envelope produced by `encrypt` with the same password returns
exactly the plaintext.  (The empty plaintext is excluded: the source treats
an empty decrypted string as a failure signal, see the counterexample.) -/
theorem c1_round_trip (data masterPassword : String) (e1 e2 : Nat)
    (hd : data ≠ "") :
    VaultCrypto.decrypt (VaultCrypto.encrypt data masterPassword e1 e2)
      masterPassword = Except.ok data :=
  VaultCrypto.decrypt_encrypt data masterPassword e1 e2 hd

theorem c1_round_trip_witness :
    VaultCrypto.decrypt (VaultCrypto.encrypt "hunter2" "pw" 3 4) "pw"
      = Except.ok "hunter2" :=
  c1_round_trip "hunter2" "pw" 3 4 (by decide)

/-- C1 counterexample: the round trip fails for the empty plaintext — the
`if (!decryptedString)` check of `VaultCrypto.decrypt` treats the correctly
recovered empty string as a wrong-password failure and throws. -/
theorem c1_empty_plaintext_counterexample :
    VaultCrypto.decrypt (VaultCrypto.encrypt "" "pw" 0 0) "pw"
      = Except.error VaultCrypto.decryptErrMsg := by
  have hsplit := VaultCrypto.jsSplit_encryptWith "" "pw"
    (VaultCrypto.generateSalt 0) (VaultCrypto.generateIV 0)
    (VaultCrypto.generateSalt_ne_colon 0) (VaultCrypto.generateIV_ne_colon 0)
  rw [show VaultCrypto.encrypt "" "pw" 0 0
      = VaultCrypto.encryptWith "" "pw" (VaultCrypto.generateSalt 0)
          (VaultCrypto.generateIV 0) from rfl,
    VaultCrypto.decrypt_wellformed _ _ _ _ _ hsplit,
    VaultCrypto.aesDecrypt_aesEncrypt]
  simp

/-- C3: `decrypt` fails (with the one observable `DecryptionError`) exactly
when the envelope does not split into three colon-separated parts or
decryption under the key derived from the password and the envelope's salt
recovers the empty/invalid plaintext; on a well-formed envelope it returns
the non-empty recovered plaintext; in particular a wrong password always
fails and never yields a silently wrong string. -/
theorem c3_decrypt_failure_characterization :
    (∀ e w salt iv ct : String, VaultCrypto.jsSplit ':' e = [salt, iv, ct] →
      VaultCrypto.decrypt e w =
        (if VaultCrypto.aesDecrypt (VaultCrypto.deriveKey w salt) iv ct = ""
         then Except.error VaultCrypto.decryptErrMsg
         else Except.ok (VaultCrypto.aesDecrypt (VaultCrypto.deriveKey w salt) iv ct)))
    ∧ (∀ e w : String, (VaultCrypto.jsSplit ':' e).length ≠ 3 →
        VaultCrypto.decrypt e w = Except.error VaultCrypto.decryptErrMsg)
    ∧ (∀ (p w1 w2 : String) (e1 e2 : Nat), w1 ≠ w2 →
        VaultCrypto.decrypt (VaultCrypto.encrypt p w1 e1 e2) w2
          = Except.error VaultCrypto.decryptErrMsg) :=
  ⟨fun e w salt iv ct h => VaultCrypto.decrypt_wellformed e w salt iv ct h,
   fun e w h => VaultCrypto.decrypt_malformed e w h,
   fun p w1 w2 e1 e2 hw => VaultCrypto.decrypt_encrypt_wrong p w1 w2 e1 e2 hw⟩

theorem c3_witness :
    VaultCrypto.decrypt (VaultCrypto.encrypt "secret" "w1" 0 1) "w2"
      = Except.error VaultCrypto.decryptErrMsg :=
  c3_decrypt_failure_characterization.2.2 "secret" "w1" "w2" 0 1 (by decide)

/-- C7 (amended): `decrypt` rejects non-three-part input inside its `try`
block with an invalid-format error distinct from the wrong-password error,
but the `catch` block rethrows both as the one generic decryption error, so
the two failure kinds are not distinguishable by the caller. -/
theorem c7_error_collapse :
    (∀ e w : String, (VaultCrypto.jsSplit ':' e).length ≠ 3 →
      VaultCrypto.decryptInner e w = Except.error VaultCrypto.invalidFormatMsg
      ∧ VaultCrypto.decrypt e w = Except.error VaultCrypto.decryptErrMsg)
    ∧ (∀ (p w1 w2 : String) (e1 e2 : Nat), w1 ≠ w2 →
        VaultCrypto.decryptInner (VaultCrypto.encrypt p w1 e1 e2) w2
          = Except.error VaultCrypto.emptyPlainMsg
        ∧ VaultCrypto.decrypt (VaultCrypto.encrypt p w1 e1 e2) w2
          = Except.error VaultCrypto.decryptErrMsg)
    ∧ VaultCrypto.invalidFormatMsg ≠ VaultCrypto.emptyPlainMsg := by
  refine ⟨?_, ?_, by decide⟩
  · intro e w h
    exact ⟨VaultCrypto.decryptInner_malformed e w h,
      VaultCrypto.decrypt_malformed e w h⟩
  · intro p w1 w2 e1 e2 hw
    exact ⟨VaultCrypto.decryptInner_encryptWith_wrong p w1 w2 _ _ hw
        (VaultCrypto.generateSalt_ne_colon e1) (VaultCrypto.generateIV_ne_colon e2),
      VaultCrypto.decrypt_encrypt_wrong p w1 w2 e1 e2 hw⟩

theorem c7_witness :
    VaultCrypto.decryptInner "abc" "w" = Except.error VaultCrypto.invalidFormatMsg
    ∧ VaultCrypto.decrypt "abc" "w" = Except.error VaultCrypto.decryptErrMsg :=
  c7_error_collapse.1 "abc" "w" (by decide)

/-- C7 counterexample: a malformed (one-part) input and a well-formed
envelope decrypted under a wrong password produce the *same* caller-visible
error value, so the two failure kinds are not distinguishable, contrary to
the claim. -/
theorem c7_indistinguishable_counterexample :
    (VaultCrypto.jsSplit ':' "not an envelope").length ≠ 3
    ∧ (VaultCrypto.jsSplit ':' (VaultCrypto.encrypt "hi" "w1" 0 0)).length = 3
    ∧ VaultCrypto.decrypt "not an envelope" "pw"
        = VaultCrypto.decrypt (VaultCrypto.encrypt "hi" "w1" 0 0) "w2" := by
  refine ⟨by decide, ?_, ?_⟩
  · rw [show VaultCrypto.encrypt "hi" "w1" 0 0
        = VaultCrypto.encryptWith "hi" "w1" (VaultCrypto.generateSalt 0)
            (VaultCrypto.generateIV 0) from rfl,
      VaultCrypto.jsSplit_encryptWith _ _ _ _
        (VaultCrypto.generateSalt_ne_colon 0) (VaultCrypto.generateIV_ne_colon 0)]
    rfl
  · rw [VaultCrypto.decrypt_malformed "not an envelope" "pw" (by decide),
      VaultCrypto.decrypt_encrypt_wrong "hi" "w1" "w2" 0 0 (by decide)]

/-- C8 (amended): `encryptVaultItem` leaves the non-sensitive fields (name,
category, links, id, timestamps, favorite flag) in clear, leaves absent
sensitive fields absent, replaces each present NON-EMPTY sensitive field by a
`salt:iv:ciphertext` envelope of exactly three colon-separated parts, and —
the amendment — leaves a present-but-empty sensitive field unchanged (the
source guards each field with JS truthiness, so `""` is skipped). -/
theorem c8_encrypt_record :
    ∀ (item : VItem) (pw : String) (ent : SField → Nat × Nat),
    ((VaultCrypto.encryptVaultItem item pw ent).name = item.name
      ∧ (VaultCrypto.encryptVaultItem item pw ent).category = item.category
      ∧ (VaultCrypto.encryptVaultItem item pw ent).links = item.links
      ∧ (VaultCrypto.encryptVaultItem item pw ent).id = item.id
      ∧ (VaultCrypto.encryptVaultItem item pw ent).createdAt = item.createdAt
      ∧ (VaultCrypto.encryptVaultItem item pw ent).isFavorite = item.isFavorite)
    ∧ (∀ f : SField, getS f item = none →
        getS f (VaultCrypto.encryptVaultItem item pw ent) = none)
    ∧ (∀ (f : SField) (s : String), getS f item = some s → s ≠ "" →
        getS f (VaultCrypto.encryptVaultItem item pw ent)
          = some (VaultCrypto.encrypt s pw (ent f).1 (ent f).2)
        ∧ VaultCrypto.jsSplit ':' (VaultCrypto.encrypt s pw (ent f).1 (ent f).2)
          = [VaultCrypto.generateSalt (ent f).1, VaultCrypto.generateIV (ent f).2,
             VaultCrypto.aesEncrypt
               (VaultCrypto.deriveKey pw (VaultCrypto.generateSalt (ent f).1))
               (VaultCrypto.generateIV (ent f).2) s])
    ∧ (∀ f : SField, getS f item = some "" →
        getS f (VaultCrypto.encryptVaultItem item pw ent) = some "") := by
  intro item pw ent
  refine ⟨?_, ?_, ?_, ?_⟩
  · exact ⟨(VaultCrypto.encryptVaultItem_clear item pw ent).2.1,
      (VaultCrypto.encryptVaultItem_clear item pw ent).2.2.1,
      (VaultCrypto.encryptVaultItem_clear item pw ent).2.2.2.1,
      (VaultCrypto.encryptVaultItem_clear item pw ent).1,
      (VaultCrypto.encryptVaultItem_clear item pw ent).2.2.2.2.1,
      (VaultCrypto.encryptVaultItem_clear item pw ent).2.2.2.2.2.2⟩
  · intro f hf
    rw [VaultCrypto.getS_encryptVaultItem item pw ent f, hf]
    rfl
  · intro f s hf hs
    constructor
    · rw [VaultCrypto.getS_encryptVaultItem item pw ent f, hf]
      simp [VaultCrypto.encField, hs]
    · rw [show VaultCrypto.encrypt s pw (ent f).1 (ent f).2
          = VaultCrypto.encryptWith s pw (VaultCrypto.generateSalt (ent f).1)
              (VaultCrypto.generateIV (ent f).2) from rfl]
      exact VaultCrypto.jsSplit_encryptWith s pw _ _
        (VaultCrypto.generateSalt_ne_colon (ent f).1)
        (VaultCrypto.generateIV_ne_colon (ent f).2)
  · intro f hf
    rw [VaultCrypto.getS_encryptVaultItem item pw ent f, hf]
    simp [VaultCrypto.encField]

theorem c8_witness :
    getS SField.username
        (VaultCrypto.encryptVaultItem
          ⟨none, "Gmail", Cat.passwords, none, some "me@x.com", some "p@ss",
            none, none, none, 0, 0, false⟩
          "Tr0ub4dor&3" (fun _ => (0, 0)))
      = some (VaultCrypto.encrypt "me@x.com" "Tr0ub4dor&3" 0 0)
    ∧ (VaultCrypto.encryptVaultItem
        ⟨none, "Gmail", Cat.passwords, none, some "me@x.com", some "p@ss",
          none, none, none, 0, 0, false⟩
        "Tr0ub4dor&3" (fun _ => (0, 0))).name = "Gmail" :=
  ⟨((c8_encrypt_record
      ⟨none, "Gmail", Cat.passwords, none, some "me@x.com", some "p@ss",
        none, none, none, 0, 0, false⟩
      "Tr0ub4dor&3" (fun _ => (0, 0))).2.2.1
    SField.username "me@x.com" rfl (by decide)).1,
   ((c8_encrypt_record
      ⟨none, "Gmail", Cat.passwords, none, some "me@x.com", some "p@ss",
        none, none, none, 0, 0, false⟩
      "Tr0ub4dor&3" (fun _ => (0, 0))).1.1).trans rfl⟩

/-- C8 counterexample: a record whose `password` field is present with the
empty-string value keeps that raw value — it is not replaced by a three-part
envelope, contrary to the claim's "each present sensitive field". -/
theorem c8_empty_field_counterexample :
    getS SField.password
        (VaultCrypto.encryptVaultItem
          ⟨none, "Gmail", Cat.passwords, none, none, some "", none, none, none,
            0, 0, false⟩
          "pw" (fun _ => (0, 0)))
      = some ""
    ∧ (VaultCrypto.jsSplit ':' "").length ≠ 3 := by
  constructor
  · rfl
  · decide

/-- C4: `decryptVaultItem` never touches non-sensitive fields, attempts
decryption only on present, non-empty sensitive values containing the `':'`
delimiter, keeps the stored value on a per-field decryption failure, and
replaces the value by the plaintext on success; the per-field `try`/`catch`
makes the whole call total, so one corrupted field never aborts the rest. -/
theorem c4_decrypt_record_resilience :
    ∀ (item : VItem) (pw : String),
    ((VaultCrypto.decryptVaultItem item pw).name = item.name
      ∧ (VaultCrypto.decryptVaultItem item pw).category = item.category
      ∧ (VaultCrypto.decryptVaultItem item pw).links = item.links
      ∧ (VaultCrypto.decryptVaultItem item pw).id = item.id
      ∧ (VaultCrypto.decryptVaultItem item pw).createdAt = item.createdAt
      ∧ (VaultCrypto.decryptVaultItem item pw).isFavorite = item.isFavorite)
    ∧ (∀ f : SField, getS f item = none →
        getS f (VaultCrypto.decryptVaultItem item pw) = none)
    ∧ (∀ (f : SField) (s : String), getS f item = some s →
        ¬(s ≠ "" ∧ ':' ∈ s.data) →
        getS f (VaultCrypto.decryptVaultItem item pw) = some s)
    ∧ (∀ (f : SField) (s m : String), getS f item = some s → s ≠ "" →
        ':' ∈ s.data → VaultCrypto.decrypt s pw = Except.error m →
        getS f (VaultCrypto.decryptVaultItem item pw) = some s)
    ∧ (∀ (f : SField) (s d : String), getS f item = some s → s ≠ "" →
        ':' ∈ s.data → VaultCrypto.decrypt s pw = Except.ok d →
        getS f (VaultCrypto.decryptVaultItem item pw) = some d) := by
  intro item pw
  refine ⟨?_, ?_, ?_, ?_, ?_⟩
  · exact ⟨(VaultCrypto.decryptVaultItem_clear item pw).2.1,
      (VaultCrypto.decryptVaultItem_clear item pw).2.2.1,
      (VaultCrypto.decryptVaultItem_clear item pw).2.2.2.1,
      (VaultCrypto.decryptVaultItem_clear item pw).1,
      (VaultCrypto.decryptVaultItem_clear item pw).2.2.2.2.1,
      (VaultCrypto.decryptVaultItem_clear item pw).2.2.2.2.2.2⟩
  · intro f hf
    rw [VaultCrypto.getS_decryptVaultItem item pw f, hf]
    rfl
  · intro f s hf hcond
    rw [VaultCrypto.getS_decryptVaultItem item pw f, hf]
    simp only [VaultCrypto.decField, if_neg hcond]
  · intro f s m hf hs hc hdec
    rw [VaultCrypto.getS_decryptVaultItem item pw f, hf]
    simp only [VaultCrypto.decField, if_pos (And.intro hs hc), hdec]
  · intro f s d hf hs hc hdec
    rw [VaultCrypto.getS_decryptVaultItem item pw f, hf]
    simp only [VaultCrypto.decField, if_pos (And.intro hs hc), hdec]

theorem c4_witness :
    getS SField.password
        (VaultCrypto.decryptVaultItem
          ⟨none, "Gmail", Cat.passwords, none, some "ab:cd",
            some (VaultCrypto.encrypt "p@ss" "pw" 0 1), none, none, none,
            0, 0, false⟩ "pw")
      = some "p@ss"
    ∧ getS SField.username
        (VaultCrypto.decryptVaultItem
          ⟨none, "Gmail", Cat.passwords, none, some "ab:cd",
            some (VaultCrypto.encrypt "p@ss" "pw" 0 1), none, none, none,
            0, 0, false⟩ "pw")
      = some "ab:cd" := by
  constructor
  · exact (c4_decrypt_record_resilience
      ⟨none, "Gmail", Cat.passwords, none, some "ab:cd",
        some (VaultCrypto.encrypt "p@ss" "pw" 0 1), none, none, none,
        0, 0, false⟩ "pw").2.2.2.2
      SField.password (VaultCrypto.encrypt "p@ss" "pw" 0 1) "p@ss" rfl
      (by decide) (by decide)
      (VaultCrypto.decrypt_encrypt "p@ss" "pw" 0 1 (by decide))
  · exact (c4_decrypt_record_resilience
      ⟨none, "Gmail", Cat.passwords, none, some "ab:cd",
        some (VaultCrypto.encrypt "p@ss" "pw" 0 1), none, none, none,
        0, 0, false⟩ "pw").2.2.2.1
      SField.username "ab:cd" VaultCrypto.decryptErrMsg rfl (by decide)
      (by decide)
      (VaultCrypto.decrypt_malformed "ab:cd" "pw" (by decide))

/-- C9: `removeDuplicateItems` keeps exactly the first occurrence of each
`name-category-createdAt` composite key (given the primary-key invariant
that stored ids are pairwise distinct) and is idempotent: a second pass on
the deduped collection removes zero items. -/
theorem c9_dedupe_idempotent :
    ∀ items : List VItem, (items.map vaultDB.idOf).Nodup →
      (vaultDB.removeDuplicateItems items).2 = vaultDB.keepFirstByKey [] items
      ∧ (vaultDB.removeDuplicateItems (vaultDB.removeDuplicateItems items).2).1 = 0
      ∧ (vaultDB.removeDuplicateItems (vaultDB.removeDuplicateItems items).2).2
          = (vaultDB.removeDuplicateItems items).2 := by
  intro items hid
  refine ⟨?_, (vaultDB.removeDuplicateItems_idem items hid).1,
    (vaultDB.removeDuplicateItems_idem items hid).2⟩
  show items.filter (fun it => decide (vaultDB.idOf it ∉ vaultDB.dupIds items []))
      = vaultDB.keepFirstByKey [] items
  exact vaultDB.filter_dupIds_eq_keepFirst items [] hid

theorem c9_witness :
    (([⟨some 1, "a", Cat.notes, none, none, none, none, none, none, 5, 5, false⟩,
       ⟨some 2, "a", Cat.notes, none, none, none, none, none, none, 5, 5, false⟩,
       ⟨some 3, "b", Cat.notes, none, none, none, none, none, none, 5, 5, false⟩]
        : List VItem).map vaultDB.idOf).Nodup
    ∧ (vaultDB.removeDuplicateItems
        (vaultDB.removeDuplicateItems
          [⟨some 1, "a", Cat.notes, none, none, none, none, none, none, 5, 5, false⟩,
           ⟨some 2, "a", Cat.notes, none, none, none, none, none, none, 5, 5, false⟩,
           ⟨some 3, "b", Cat.notes, none, none, none, none, none, none, 5, 5, false⟩]).2).1
      = 0 :=
  ⟨by decide,
   (c9_dedupe_idempotent
      [⟨some 1, "a", Cat.notes, none, none, none, none, none, none, 5, 5, false⟩,
       ⟨some 2, "a", Cat.notes, none, none, none, none, none, none, 5, 5, false⟩,
       ⟨some 3, "b", Cat.notes, none, none, none, none, none, none, 5, 5, false⟩]
      (by decide)).2.1⟩

/-- C2 (amended): whenever a password is active, the server is available and
the snapshot load succeeds, `autoSyncVaultItems` reports
`success, action: loaded, count = N`, and — provided the server snapshot
itself contains no two items sharing the `(name, category, createdAt)`
dedupe key — `getAllItems` afterwards returns exactly `N` items, regardless
of the prior local collection. -/
theorem c2_snapshot_convergence :
    ∀ (st : vaultDB.DBState) (pw : String) (serverItems : List VItem),
      pw ≠ "" →
      (serverItems.map vaultDB.keyOf).Nodup →
      (vaultDB.autoSyncVaultItems pw true (Except.ok serverItems) st).1
        = { success := true, action := vaultDB.SyncAction.loaded,
            count := some serverItems.length }
      ∧ (vaultDB.getAllItems pw
          (vaultDB.autoSyncVaultItems pw true (Except.ok serverItems) st).2).1.length
        = serverItems.length := by
  intro st pw serverItems hpw hkeys
  have hstamp_keys :
      ((vaultDB.stampFrom st.nextId serverItems).map vaultDB.keyOf).Nodup := by
    rw [vaultDB.stampFrom_map_keyOf]
    exact hkeys
  have hclean := vaultDB.removeDuplicateItems_nodup_keys _ hstamp_keys
  have hauto : vaultDB.autoSyncVaultItems pw true (Except.ok serverItems) st
      = ({ success := true, action := vaultDB.SyncAction.loaded,
           count := some serverItems.length },
         { items := (vaultDB.removeDuplicateItems
             (vaultDB.stampFrom st.nextId serverItems)).2,
           nextId := st.nextId + serverItems.length }) := by
    unfold vaultDB.autoSyncVaultItems
    rw [if_neg hpw]
    simp only [Bool.not_true, vaultDB.syncFromServer_ok_state]
    simp
  constructor
  · rw [hauto]
  · rw [hauto, vaultDB.getAllItems_length]
    simp only [hclean, vaultDB.stampFrom_length]

theorem c2_snapshot_convergence_witness :
    (vaultDB.autoSyncVaultItems "pw" true
      (Except.ok
        [⟨some 7, "a", Cat.notes, none, none, none, none, none, none, 5, 5, false⟩,
         ⟨some 8, "b", Cat.notes, none, none, none, none, none, none, 5, 5, false⟩])
      ⟨[⟨some 1, "x", Cat.files, none, none, none, none, none, none, 1, 1, false⟩], 2⟩).1
      = { success := true, action := vaultDB.SyncAction.loaded, count := some 2 }
    ∧ (vaultDB.getAllItems "pw"
        (vaultDB.autoSyncVaultItems "pw" true
          (Except.ok
            [⟨some 7, "a", Cat.notes, none, none, none, none, none, none, 5, 5, false⟩,
             ⟨some 8, "b", Cat.notes, none, none, none, none, none, none, 5, 5, false⟩])
          ⟨[⟨some 1, "x", Cat.files, none, none, none, none, none, none, 1, 1, false⟩],
            2⟩).2).1.length = 2 :=
  c2_snapshot_convergence
    ⟨[⟨some 1, "x", Cat.files, none, none, none, none, none, none, 1, 1, false⟩], 2⟩
    "pw"
    [⟨some 7, "a", Cat.notes, none, none, none, none, none, none, 5, 5, false⟩,
     ⟨some 8, "b", Cat.notes, none, none, none, none, none, none, 5, 5, false⟩]
    (by decide) (by decide)

/-- C2 counterexample: a server snapshot of size 2 whose two items share the
dedupe key converges to 1 local item, not 2 — the automatic dedupe pass
eats the second copy even though the sync succeeded with `count = 2`. -/
theorem c2_duplicate_snapshot_counterexample :
    (vaultDB.autoSyncVaultItems "pw" true
      (Except.ok
        [⟨some 7, "a", Cat.notes, none, none, none, none, none, none, 5, 5, false⟩,
         ⟨some 9, "a", Cat.notes, none, none, none, none, none, none, 5, 5, false⟩])
      ⟨[], 1⟩).1
      = { success := true, action := vaultDB.SyncAction.loaded, count := some 2 }
    ∧ (vaultDB.getAllItems "pw"
        (vaultDB.autoSyncVaultItems "pw" true
          (Except.ok
            [⟨some 7, "a", Cat.notes, none, none, none, none, none, none, 5, 5, false⟩,
             ⟨some 9, "a", Cat.notes, none, none, none, none, none, none, 5, 5, false⟩])
          ⟨[], 1⟩).2).1.length = 1 := by
  decide

theorem any_not_truthy_eq_false (items : List SItem)
    (h : items.all (fun it => truthyStringId it.id) = true) :
    items.any (fun it => !truthyStringId it.id) = false := by
  rw [Bool.eq_false_iff]
  intro hcontr
  rcases List.any_eq_true.mp hcontr with ⟨x, hx, hbx⟩
  have htr := List.all_eq_true.mp h x hx
  rw [htr] at hbx
  simp at hbx

theorem postVaultItems_success_some (st : SrvVaultState) (items : List SItem)
    (pw : String) (now : Nat) (saltR ivR : String) (s : EncObj (List SItem))
    (hvalid : items.all (fun it => truthyStringId it.id) = true)
    (hsnap : st.snapshot = some s) :
    postVaultItems st items pw now saltR ivR none
      = (SaveResp.okSave items.length,
         { snapshot := some (FileEncryption.encrypt items pw saltR ivR),
           backups := pruneBackups (st.backups ++ [(now, s)]) }) := by
  have hany := any_not_truthy_eq_false items hvalid
  simp only [postVaultItems, hany, Bool.false_eq_true, if_false, hsnap,
    Option.getD, FileEncryption.decryptJson_encrypt]
  simp

theorem postVaultItems_success_none (st : SrvVaultState) (items : List SItem)
    (pw : String) (now : Nat) (saltR ivR : String)
    (hvalid : items.all (fun it => truthyStringId it.id) = true)
    (hsnap : st.snapshot = none) :
    postVaultItems st items pw now saltR ivR none
      = (SaveResp.okSave items.length,
         { snapshot := some (FileEncryption.encrypt items pw saltR ivR),
           backups := pruneBackups st.backups }) := by
  have hany := any_not_truthy_eq_false items hvalid
  simp only [postVaultItems, hany, Bool.false_eq_true, if_false, hsnap,
    Option.getD, FileEncryption.decryptJson_encrypt]
  simp

theorem postVaultItems_fault_some (st : SrvVaultState) (items : List SItem)
    (pw : String) (now : Nat) (saltR ivR : String) (s f : EncObj (List SItem))
    (hvalid : items.all (fun it => truthyStringId it.id) = true)
    (hsnap : st.snapshot = some s)
    (hmismatch : ∀ l, FileEncryption.decryptJson f pw = some l →
      l.length ≠ items.length) :
    postVaultItems st items pw now saltR ivR (some f)
      = (SaveResp.saveError,
         { snapshot := some s, backups := st.backups ++ [(now, s)] }) := by
  have hany := any_not_truthy_eq_false items hvalid
  simp only [postVaultItems, hany, Bool.false_eq_true, if_false, hsnap,
    Option.getD]
  cases hdec : FileEncryption.decryptJson f pw with
  | none => simp [restoreFromBackup, hsnap]
  | some l =>
    have hne := hmismatch l hdec
    simp [restoreFromBackup, hsnap, hne]

theorem postVaultItems_fault_none (st : SrvVaultState) (items : List SItem)
    (pw : String) (now : Nat) (saltR ivR : String) (f : EncObj (List SItem))
    (hvalid : items.all (fun it => truthyStringId it.id) = true)
    (hsnap : st.snapshot = none)
    (hmismatch : ∀ l, FileEncryption.decryptJson f pw = some l →
      l.length ≠ items.length) :
    postVaultItems st items pw now saltR ivR (some f)
      = (SaveResp.saveError,
         { snapshot := some (FileEncryption.encrypt items pw saltR ivR),
           backups := st.backups }) := by
  have hany := any_not_truthy_eq_false items hvalid
  simp only [postVaultItems, hany, Bool.false_eq_true, if_false, hsnap,
    Option.getD]
  cases hdec : FileEncryption.decryptJson f pw with
  | none => simp [restoreFromBackup, hsnap]
  | some l =>
    have hne := hmismatch l hdec
    simp [restoreFromBackup, hsnap, hne]

theorem putList_mem_str (its : List SItem) (itemId : String) (item : SItem) :
    ∃ j ∈ putList its itemId item, j.id = JsId.str itemId := by
  induction its with
  | nil => exact ⟨{ item with id := JsId.str itemId }, List.mem_singleton_self _, rfl⟩
  | cons i rest ih =>
    by_cases h : i.id = JsId.str itemId
    · rw [putList, if_pos h]
      exact ⟨_, List.mem_cons_self _ _, rfl⟩
    · rw [putList, if_neg h]
      rcases ih with ⟨j, hj, hjid⟩
      exact ⟨j, List.mem_cons_of_mem _ hj, hjid⟩

theorem putList_preserves_str (its : List SItem) (itemId : String) (item : SItem)
    (h : ∀ j ∈ its, isStringId j.id) :
    ∀ j ∈ putList its itemId item, isStringId j.id := by
  induction its with
  | nil =>
    intro j hj
    rw [putList] at hj
    rcases List.mem_singleton.mp hj with rfl
    exact ⟨itemId, rfl⟩
  | cons i rest ih =>
    intro j hj
    by_cases hid : i.id = JsId.str itemId
    · rw [putList, if_pos hid] at hj
      rcases List.mem_cons.mp hj with rfl | hj
      · exact ⟨itemId, rfl⟩
      · exact h j (List.mem_cons_of_mem _ hj)
    · rw [putList, if_neg hid] at hj
      rcases List.mem_cons.mp hj with rfl | hj
      · exact h j (List.mem_cons_self _ _)
      · exact ih (fun x hx => h x (List.mem_cons_of_mem _ hx)) j hj

theorem putVaultItem_stored (its : List SItem) (itemId : String) (item : SItem)
    (pw s1 i1 s2 i2 : String) :
    putVaultItem (some (FileEncryption.encrypt its pw s1 i1)) itemId item pw s2 i2
      = (PutResp.okPut itemId,
         some (FileEncryption.encrypt (putList its itemId item) pw s2 i2)) := by
  simp only [putVaultItem, FileEncryption.decryptJson_encrypt]

/-- C10: every snapshot operation maintains the string-typed-id invariant.
The full-snapshot save rejects (leaving the store untouched) any array
containing an item without a string id, and a successful save stores exactly
the validated items, all of which carry string ids; the single-item update
forces the stored entry's id to the string path parameter and preserves the
invariant for the other entries; and the client push converts every local
numeric id to a string before calling save. -/
theorem c10_string_id_invariant :
    (∀ (st : SrvVaultState) (items : List SItem) (pw : String) (now : Nat)
       (saltR ivR : String) (fault : Option (EncObj (List SItem))),
      (∃ it ∈ items, ¬ isStringId it.id) →
      postVaultItems st items pw now saltR ivR fault = (SaveResp.invalidItems, st))
    ∧ (∀ (its : List SItem) (itemId : String) (item : SItem),
        (∃ j ∈ putList its itemId item, j.id = JsId.str itemId)
        ∧ ((∀ j ∈ its, isStringId j.id) →
            ∀ j ∈ putList its itemId item, isStringId j.id))
    ∧ (∀ (its : List SItem) (itemId : String) (item : SItem) (pw s1 i1 s2 i2 : String),
        putVaultItem (some (FileEncryption.encrypt its pw s1 i1)) itemId item pw s2 i2
          = (PutResp.okPut itemId,
             some (FileEncryption.encrypt (putList its itemId item) pw s2 i2)))
    ∧ (∀ l : List VItem, ∀ j ∈ itemsForServer l, isStringId j.id)
    ∧ (∀ (st : SrvVaultState) (items : List SItem) (pw : String) (now : Nat)
         (saltR ivR : String) (s : EncObj (List SItem)),
        items.all (fun it => truthyStringId it.id) = true →
        st.snapshot = some s →
        (postVaultItems st items pw now saltR ivR none).2.snapshot
            = some (FileEncryption.encrypt items pw saltR ivR)
        ∧ (∀ it ∈ items, isStringId it.id)) := by
  refine ⟨?_, ?_, ?_, ?_, ?_⟩
  · intro st items pw now saltR ivR fault hbad
    rcases hbad with ⟨it, hit, hns⟩
    have hany : items.any (fun it => !truthyStringId it.id) = true := by
      refine List.any_eq_true.mpr ⟨it, hit, ?_⟩
      cases hid : it.id with
      | str s => exact absurd ⟨s, hid⟩ hns
      | num n => rfl
      | missing => rfl
    unfold postVaultItems
    rw [if_pos hany]
  · intro its itemId item
    exact ⟨putList_mem_str its itemId item, putList_preserves_str its itemId item⟩
  · intro its itemId item pw s1 i1 s2 i2
    exact putVaultItem_stored its itemId item pw s1 i1 s2 i2
  · intro l j hj
    rcases List.mem_map.mp hj with ⟨it, _, rfl⟩
    exact ⟨jsStringOfId it.id, rfl⟩
  · intro st items pw now saltR ivR s hvalid hsnap
    constructor
    · rw [postVaultItems_success_some st items pw now saltR ivR s hvalid hsnap]
    · intro it hit
      have := List.all_eq_true.mp hvalid it hit
      cases hid : it.id with
      | str s2 => exact ⟨s2, rfl⟩
      | num n => rw [hid] at this; exact absurd this (by simp [truthyStringId])
      | missing => rw [hid] at this; exact absurd this (by simp [truthyStringId])

theorem c10_witness :
    postVaultItems ⟨none, []⟩ [⟨JsId.num 3, []⟩] "pw" 0 "s" "i" none
      = (SaveResp.invalidItems, ⟨none, []⟩)
    ∧ putVaultItem
        (some (FileEncryption.encrypt ([⟨JsId.str "1", [("name", "a")]⟩]) "pw" "s1" "i1"))
        "2" ⟨JsId.missing, [("name", "b")]⟩ "pw" "s2" "i2"
      = (PutResp.okPut "2",
         some (FileEncryption.encrypt
           (putList [⟨JsId.str "1", [("name", "a")]⟩] "2" ⟨JsId.missing, [("name", "b")]⟩)
           "pw" "s2" "i2")) :=
  ⟨c10_string_id_invariant.1 ⟨none, []⟩ [⟨JsId.num 3, []⟩] "pw" 0 "s" "i" none
      ⟨⟨JsId.num 3, []⟩, List.mem_singleton_self _, by rintro ⟨s, hs⟩; cases hs⟩,
   c10_string_id_invariant.2.2.1
      [⟨JsId.str "1", [("name", "a")]⟩] "2" ⟨JsId.missing, [("name", "b")]⟩
      "pw" "s1" "i1" "s2" "i2"⟩

/-- C5 (amended): on a snapshot save over an EXISTING stored snapshot, the
old snapshot is copied to a backup timestamped with the current time; on a
verification mismatch the pre-save snapshot is restored from that backup and
a save error is reported, so the stored snapshot equals its pre-save
content; on a successful save at most five backups remain, every kept backup
is one of the previously existing ones, the fresh backup survives the
pruning, and every pruned backup is at least as old as every kept one.  (The
amendment: on a FIRST save, with no pre-save snapshot, a verification
mismatch leaves the failed write in place — see the counterexample.) -/
theorem c5_snapshot_save_protection :
    ∀ (st : SrvVaultState) (items : List SItem) (pw : String) (now : Nat)
      (saltR ivR : String) (s : EncObj (List SItem)),
      items.all (fun it => truthyStringId it.id) = true →
      st.snapshot = some s →
      (∀ b ∈ st.backups, b.1 < now) →
      (∀ f : EncObj (List SItem),
        (∀ l, FileEncryption.decryptJson f pw = some l → l.length ≠ items.length) →
        postVaultItems st items pw now saltR ivR (some f)
          = (SaveResp.saveError,
             { snapshot := some s, backups := st.backups ++ [(now, s)] }))
      ∧ ((postVaultItems st items pw now saltR ivR none).1
            = SaveResp.okSave items.length
        ∧ (postVaultItems st items pw now saltR ivR none).2.snapshot
            = some (FileEncryption.encrypt items pw saltR ivR)
        ∧ (postVaultItems st items pw now saltR ivR none).2.backups.length ≤ 5
        ∧ (now, s) ∈ (postVaultItems st items pw now saltR ivR none).2.backups
        ∧ (∀ k ∈ (postVaultItems st items pw now saltR ivR none).2.backups,
            k ∈ st.backups ++ [(now, s)])
        ∧ (∀ d ∈ st.backups ++ [(now, s)],
            d ∉ (postVaultItems st items pw now saltR ivR none).2.backups →
            ∀ k ∈ (postVaultItems st items pw now saltR ivR none).2.backups,
              d.1 ≤ k.1)) := by
  intro st items pw now saltR ivR s hvalid hsnap hrec
  constructor
  · intro f hmis
    exact postVaultItems_fault_some st items pw now saltR ivR s f hvalid hsnap hmis
  · rw [postVaultItems_success_some st items pw now saltR ivR s hvalid hsnap]
    refine ⟨rfl, rfl, ?_, ?_, ?_, ?_⟩
    · exact pruneBackups_length_le _ (le_or_lt _ _)
    · exact pruneBackups_newest_mem st.backups (now, s) hrec
    · exact pruneBackups_subset _
    · exact pruneBackups_drop_older _

theorem c5_witness :
    postVaultItems
        ⟨some (FileEncryption.encrypt [⟨JsId.str "0", []⟩] "pw" "s0" "i0"), []⟩
        [⟨JsId.str "1", []⟩] "pw" 10 "s" "i"
        (some (FileEncryption.encrypt ([] : List SItem) "pw" "sf" "if"))
      = (SaveResp.saveError,
         ⟨some (FileEncryption.encrypt [⟨JsId.str "0", []⟩] "pw" "s0" "i0"),
          [(10, FileEncryption.encrypt [⟨JsId.str "0", []⟩] "pw" "s0" "i0")]⟩)
    ∧ (postVaultItems
        ⟨some (FileEncryption.encrypt [⟨JsId.str "0", []⟩] "pw" "s0" "i0"), []⟩
        [⟨JsId.str "1", []⟩] "pw" 10 "s" "i" none).1
      = SaveResp.okSave 1 :=
  ⟨(c5_snapshot_save_protection
      ⟨some (FileEncryption.encrypt [⟨JsId.str "0", []⟩] "pw" "s0" "i0"), []⟩
      [⟨JsId.str "1", []⟩] "pw" 10 "s" "i"
      (FileEncryption.encrypt [⟨JsId.str "0", []⟩] "pw" "s0" "i0")
      (by decide) rfl (by simp)).1
      (FileEncryption.encrypt ([] : List SItem) "pw" "sf" "if")
      (by
        intro l hl
        rw [FileEncryption.decryptJson_encrypt] at hl
        injection hl with h2
        subst h2
        decide),
   (c5_snapshot_save_protection
      ⟨some (FileEncryption.encrypt [⟨JsId.str "0", []⟩] "pw" "s0" "i0"), []⟩
      [⟨JsId.str "1", []⟩] "pw" 10 "s" "i"
      (FileEncryption.encrypt [⟨JsId.str "0", []⟩] "pw" "s0" "i0")
      (by decide) rfl (by simp)).2.1⟩

/-- C5 counterexample: on a first save (no pre-existing snapshot) with a
forced verification mismatch there is no backup to restore from, so the
failed write is left as the stored snapshot — the stored snapshot does NOT
equal its pre-save content (absent), contrary to the claim's parenthetical
invariant. -/
theorem c5_first_save_counterexample :
    (postVaultItems ⟨none, []⟩ [⟨JsId.str "1", []⟩] "pw" 0 "s" "i"
        (some ⟨CtVal.mk ("other", "s") "i" [], "s", "i"⟩)).1
      = SaveResp.saveError
    ∧ (postVaultItems ⟨none, []⟩ [⟨JsId.str "1", []⟩] "pw" 0 "s" "i"
        (some ⟨CtVal.mk ("other", "s") "i" [], "s", "i"⟩)).2.snapshot ≠ none := by
  decide

/-- C6 (amended): for every uploaded file with NON-EMPTY content, corrupting
the stored encrypted file body (replacing the ciphertext by any other value)
makes the subsequent download under the same password fail with the
integrity error, and a download that returns success always returns exactly
the original content — never silently wrong bytes.  (The amendment: for a
zero-byte file a corrupted body can decrypt to the empty string, whose
checksum matches the stored one, so the download succeeds; even then the
returned content is the original empty content, not wrong bytes — see the
counterexample.) -/
theorem c6_integrity_detection :
    ∀ (b64 pw fileId fname mime desc cat up : String) (size : Nat)
      (saltF ivF saltM ivM : String) (ctBad : CtVal String),
      b64 ≠ "" →
      ctBad ≠ (uploadFile b64 pw fileId fname mime desc cat up size
        saltF ivF saltM ivM).1.encrypted →
      downloadFile
          { (uploadFile b64 pw fileId fname mime desc cat up size
              saltF ivF saltM ivM).1 with encrypted := ctBad }
          (uploadFile b64 pw fileId fname mime desc cat up size
            saltF ivF saltM ivM).2 pw
        = DlResult.integrityError
      ∧ (∀ (e : EncObj String) (b : String) (m : FMeta),
          downloadFile e
              (uploadFile b64 pw fileId fname mime desc cat up size
                saltF ivF saltM ivM).2 pw
            = DlResult.okDownload b m → b = b64) := by
  intro b64 pw fileId fname mime desc cat up size saltF ivF saltM ivM ctBad hb hbad
  have hU2 : (uploadFile b64 pw fileId fname mime desc cat up size
      saltF ivF saltM ivM).2
      = FileEncryption.encrypt
          ⟨fileId, fname, mime, size, desc, cat, up, sha256 b64⟩ pw saltM ivM := rfl
  have hU1e : (uploadFile b64 pw fileId fname mime desc cat up size
      saltF ivF saltM ivM).1.encrypted = CtVal.mk (pw, saltF) ivF b64 := rfl
  constructor
  · have hobj : ({ (uploadFile b64 pw fileId fname mime desc cat up size
        saltF ivF saltM ivM).1 with encrypted := ctBad } : EncObj String)
        = ⟨ctBad, saltF, ivF⟩ := rfl
    rw [hobj, hU2]
    unfold downloadFile
    rw [FileEncryption.decryptJson_encrypt]
    cases ctBad with
    | mk k ivU plain =>
      by_cases hmatch : k = (pw, saltF) ∧ ivU = ivF
      · have hplain : plain ≠ b64 := by
          intro he
          apply hbad
          rw [hU1e, hmatch.1, hmatch.2, he]
        have hdec : FileEncryption.decryptString
            (⟨CtVal.mk k ivU plain, saltF, ivF⟩ : EncObj String) pw = plain := by
          simp [FileEncryption.decryptString, hmatch.1, hmatch.2]
        rw [hdec]
        have hshane : sha256 plain ≠ sha256 b64 := fun hc => hplain (sha256_inj hc)
        simp [hshane, sha256_ne_empty]
      · have hdec : FileEncryption.decryptString
            (⟨CtVal.mk k ivU plain, saltF, ivF⟩ : EncObj String) pw = "" := by
          simp only [FileEncryption.decryptString]
          rw [if_neg]
          intro hcon
          exact hmatch ⟨hcon.1, hcon.2⟩
        rw [hdec]
        have hshane : sha256 "" ≠ sha256 b64 := fun hc => hb (sha256_inj hc).symm
        simp [hshane, sha256_ne_empty]
  · intro e b m heq
    rw [hU2] at heq
    unfold downloadFile at heq
    rw [FileEncryption.decryptJson_encrypt] at heq
    replace heq :
        (if sha256 b64 ≠ "" ∧
            sha256 (FileEncryption.decryptString e pw) ≠ sha256 b64
         then DlResult.integrityError
         else DlResult.okDownload (FileEncryption.decryptString e pw)
           ⟨fileId, fname, mime, size, desc, cat, up, sha256 b64⟩)
        = DlResult.okDownload b m := heq
    by_cases hcond : sha256 b64 ≠ "" ∧
        sha256 (FileEncryption.decryptString e pw) ≠ sha256 b64
    · rw [if_pos hcond] at heq
      cases heq
    · rw [if_neg hcond] at heq
      injection heq with h1 h2
      have hsha : sha256 (FileEncryption.decryptString e pw) = sha256 b64 := by
        by_contra hne
        exact hcond ⟨sha256_ne_empty b64, hne⟩
      have := sha256_inj hsha
      rw [← h1, this]

theorem c6_witness :
    downloadFile
        { (uploadFile "QUJD" "pw" "fid" "f" "t" "d" "files" "u" 3
            "sf" "if" "sm" "im").1 with encrypted := CtVal.mk ("x", "y") "z" "w" }
        (uploadFile "QUJD" "pw" "fid" "f" "t" "d" "files" "u" 3
          "sf" "if" "sm" "im").2 "pw"
      = DlResult.integrityError :=
  (c6_integrity_detection "QUJD" "pw" "fid" "f" "t" "d" "files" "u" 3
    "sf" "if" "sm" "im" (CtVal.mk ("x", "y") "z" "w")
    (by decide) (by decide)).1

/-- C6 counterexample: for a zero-byte upload, a corrupted encrypted body
decrypts (under the code's empty-on-failure behaviour) to the empty string,
whose checksum equals the stored checksum of the empty content, so the
download succeeds instead of failing with the integrity error.  The returned
content is still the original (empty) content. -/
theorem c6_empty_file_counterexample :
    CtVal.mk ("x", "y") "z" ""
        ≠ (uploadFile "" "pw" "fid" "f" "t" "d" "files" "u" 0
            "sf" "if" "sm" "im").1.encrypted
    ∧ downloadFile
        { (uploadFile "" "pw" "fid" "f" "t" "d" "files" "u" 0
            "sf" "if" "sm" "im").1 with encrypted := CtVal.mk ("x", "y") "z" "" }
        (uploadFile "" "pw" "fid" "f" "t" "d" "files" "u" 0
          "sf" "if" "sm" "im").2 "pw"
      = DlResult.okDownload "" ⟨"fid", "f", "t", 0, "d", "files", "u", sha256 ""⟩ := by
  constructor
  · decide
  · decide
